import Mathlib

/-!
Verification of the claude-deck configuration/permission core
(`backend/app/utils/pattern_utils.py`, `backend/app/services/permission_service.py`,
`backend/app/services/config_service.py`) via a shallow embedding.

JSON documents are modelled by the inductive `Json`; Python dicts are
association lists read/written at the first matching key (Python dicts keep
keys unique and ordered, so first-match lookup/replace coincides with dict
semantics on every value a real document can have).  Python `None` is
`Json.null`.  The `uuid.uuid5(NAMESPACE_DNS, name)` rule ids are modelled by
the `name` string itself (uuid5 is a deterministic, collision-free-in-practice
hash of the name, so the name is a faithful stand-in for identity reasoning).
File I/O (`file_utils.read_json_file` / `write_json_file`, not part of the
sources) is modelled per the spec's ScopeStore contract: each operation takes
the current stored document and returns the document it writes; writes are
assumed to succeed.
-/

namespace ClaudeDeck

/-- JSON-like values (Python objects produced by `json.load`). -/
inductive Json where
  | null
  | bool (b : Bool)
  | num (n : Int)
  | str (s : String)
  | arr (xs : List Json)
  | obj (kvs : List (String × Json))

mutual

/-- Python `==` on JSON values (structural equality). -/
def Json.beq : Json → Json → Bool
  | .null, .null => true
  | .bool a, .bool b => a == b
  | .num a, .num b => a == b
  | .str a, .str b => a == b
  | .arr xs, .arr ys => Json.beqL xs ys
  | .obj xs, .obj ys => Json.beqK xs ys
  | _, _ => false

/-- Python `==` on JSON arrays. -/
def Json.beqL : List Json → List Json → Bool
  | [], [] => true
  | x :: xs, y :: ys => Json.beq x y && Json.beqL xs ys
  | _, _ => false

/-- Python `==` on JSON objects (ordered association lists). -/
def Json.beqK : List (String × Json) → List (String × Json) → Bool
  | [], [] => true
  | (k, v) :: xs, (k', v') :: ys => k == k' && Json.beq v v' && Json.beqK xs ys
  | _, _ => false

end

/-- First-match lookup in an association list (Python `d[k]` / `k in d`). -/
def getA : List (String × Json) → String → Option Json
  | [], _ => none
  | (k', v) :: t, k => if k' = k then some v else getA t k

/-- First-match replace-or-append (Python `d[k] = v`). -/
def setA : List (String × Json) → String → Json → List (String × Json)
  | [], k, v => [(k, v)]
  | (k', v') :: t, k, v => if k' = k then (k', v) :: t else (k', v') :: setA t k v

/-- `d.get(k)` on a JSON value: key lookup on objects, `none` otherwise. -/
def Json.getKey : Json → String → Option Json
  | Json.obj kvs, k => getA kvs k
  | _, _ => none

/-- `d[k] = v` on a JSON value; a no-op on non-objects (Python would raise
there; every theorem below only applies it to objects). -/
def Json.setKey : Json → String → Json → Json
  | Json.obj kvs, k, v => Json.obj (setA kvs k v)
  | j, _, _ => j

mutual

/-- Python `str()` of a JSON scalar / `repr()`-style rendering of containers
(only the scalar cases are exercised by the claims). -/
def pyRepr : Json → String
  | Json.null => "None"
  | Json.bool true => "True"
  | Json.bool false => "False"
  | Json.num n => toString n
  | Json.str s => "'" ++ s ++ "'"
  | Json.arr xs => "[" ++ pyReprList xs ++ "]"
  | Json.obj kvs => "\x7b" ++ pyReprKvs kvs ++ "\x7d"

/-- Comma-separated `repr` of array elements. -/
def pyReprList : List Json → String
  | [] => ""
  | [x] => pyRepr x
  | x :: xs => pyRepr x ++ ", " ++ pyReprList xs

/-- Comma-separated `repr` of object entries. -/
def pyReprKvs : List (String × Json) → String
  | [] => ""
  | [(k, v)] => "'" ++ k ++ "': " ++ pyRepr v
  | (k, v) :: kvs => "'" ++ k ++ "': " ++ pyRepr v ++ ", " ++ pyReprKvs kvs

end

/-- Python `str()` of a JSON value. -/
def pyStr : Json → String
  | Json.str s => s
  | j => pyRepr j

/-! ## Character classes and regex building blocks (pattern_utils.py)

The regexes of the source are small and fixed; each is embedded as a direct
parser on `List Char`.  `[A-Za-z_]` / `[A-Za-z0-9_]` are ASCII classes, which
is exactly what `Char.isAlpha` / `Char.isAlphanum` test. -/

/-- `[A-Za-z_]` — first character of an identifier. -/
def isIdentStart (c : Char) : Bool := c.isAlpha || c == '_'

/-- `[A-Za-z0-9_]` — subsequent characters of an identifier. -/
def isIdentChar (c : Char) : Bool := c.isAlphanum || c == '_'

/-- Python `str.isspace`-style whitespace (ASCII range, as used by `strip()`
and `\s`); patterns in real documents are ASCII. -/
def isPySpace (c : Char) : Bool :=
  c == ' ' || c == '\t' || c == '\n' || c == '\r' || c == '\x0b' || c == '\x0c'

/-- Greedy match of `^[A-Za-z_][A-Za-z0-9_]*`, returning the identifier and
the rest.  The class admits no backtracking: the maximal munch is the only
possible match. -/
def identSplit : List Char → Option (List Char × List Char)
  | [] => none
  | c :: rest =>
      if isIdentStart c then some (c :: rest.takeWhile isIdentChar, rest.dropWhile isIdentChar)
      else none

/-- `TOOL_ARG_RE = ^([A-Za-z_][A-Za-z0-9_]*)\((.+)\)$` (DOTALL): identifier,
`(`, non-empty argument, `)` at the very end.  Both call sites apply it only
after newlines have been excluded, so the DOTALL flag and `$`-before-final-
newline subtleties never bite. -/
def toolArgParse (cs : List Char) : Option (List Char × List Char) :=
  match identSplit cs with
  | some (tool, '(' :: rest) =>
      if rest.getLast? = some ')' ∧ 2 ≤ rest.length then some (tool, rest.dropLast)
      else none
  | _ => none

/-- `TOOL_SUBCOMMAND_RE = ^([A-Za-z_][A-Za-z0-9_]*):\*$`. -/
def toolSubcmdStar (cs : List Char) : Bool :=
  match identSplit cs with
  | some (_, rest) => rest = [':', '*']
  | none => false

/-- `TOOL_NAME_RE = ^[A-Za-z_][A-Za-z0-9_]*$`. -/
def toolNameOnly (cs : List Char) : Bool :=
  match identSplit cs with
  | some (_, rest) => rest.isEmpty
  | none => false

/-- `DEPRECATED_COLON_STAR_RE.search` (`:\*$`): the argument ends with the
two characters `:*` (arguments reaching this test are newline-free). -/
def endsColonStar (cs : List Char) : Bool :=
  match cs.reverse with
  | '*' :: ':' :: _ => true
  | _ => false

/-- `DEPRECATED_COLON_STAR_RE.sub(" *", arg)`: replace the trailing `:*` by
`␣*` (the regex is end-anchored, so at most one replacement happens). -/
def colonStarSub (cs : List Char) : List Char :=
  if endsColonStar cs then cs.dropLast.dropLast ++ [' ', '*'] else cs

/-- `if "\n" in pattern or "\r" in pattern`. -/
def hasNewline (cs : List Char) : Bool := cs.any fun c => c == '\n' || c == '\r'

/-- `if not pattern or not pattern.strip()`. -/
def isBlank (cs : List Char) : Bool := cs.all isPySpace

/-! ## pattern_utils.validate_permission_pattern / migrate_deprecated_pattern -/

/-- `MAX_PATTERN_LENGTH`. -/
def MAX_PATTERN_LENGTH : Nat := 500

/-- `validate_permission_pattern(pattern)` → `(is_valid, error_message)`. -/
def validate_permission_pattern (pattern : String) : Bool × Option String :=
  let cs := pattern.data
  if isBlank cs then (false, some "Pattern must not be empty")
  else if hasNewline cs then (false, some "Pattern must not contain newline characters")
  else if MAX_PATTERN_LENGTH < cs.length then
    (false, some "Pattern exceeds maximum length of 500 characters")
  else
    match toolArgParse cs with
    | some (tool, arg) =>
        if tool ≠ "MCP".data ∧ endsColonStar arg then
          (false, some ("The :* pattern inside Tool(...) is deprecated. " ++
            "Use space-wildcard instead: e.g., Bash(command *) not Bash(command:*)"))
        else (true, none)
    | none =>
        if toolSubcmdStar cs then (true, none)
        else if toolNameOnly cs then (true, none)
        else (false, some ("Invalid pattern format: " ++ pattern))

/-- `migrate_deprecated_pattern(pattern)`. -/
def migrate_deprecated_pattern (pattern : String) : Option String :=
  let cs := pattern.data
  if hasNewline cs then none
  else if MAX_PATTERN_LENGTH < cs.length then none
  else
    match toolArgParse cs with
    | some (tool, arg) =>
        if tool ≠ "MCP".data ∧ endsColonStar arg then
          some ⟨tool ++ ('(' :: (colonStarSub arg ++ [')']))⟩
        else none
    | none => none

/-! ## fnmatch-style glob matching (Python `fnmatch.fnmatch` on POSIX, where
`normcase` is the identity): `*` any sequence, `?` any single character,
`[seq]` / `[!seq]` character classes with `-` ranges; an unterminated `[` is a
literal. -/

/-- Split a bracket-class body at its closing `]`; `none` when unterminated. -/
def scanClose (cs : List Char) : Option (List Char × List Char) :=
  match cs.dropWhile (· ≠ ']') with
  | ']' :: rest => some (cs.takeWhile (· ≠ ']'), rest)
  | _ => none

/-- Scan a bracket class following `fnmatch.translate`: after `[`, an
optional `!`, then a possibly-leading literal `]`, then characters up to the
closing `]`.  Returns `(negated, class content, rest after the class)`, or
`none` when the class is unterminated (literal `[`). -/
def bracketScan (cs : List Char) : Option (Bool × List Char × List Char) :=
  match cs with
  | '!' :: ']' :: t => (scanClose t).map fun p => (true, ']' :: p.1, p.2)
  | '!' :: t => (scanClose t).map fun p => (true, p.1, p.2)
  | ']' :: t => (scanClose t).map fun p => (false, ']' :: p.1, p.2)
  | t => (scanClose t).map fun p => (false, p.1, p.2)


/-- Does character `c` belong to a bracket class (`a-b` ranges, otherwise
literal characters; a trailing or leading `-` is literal)? -/
def classMatch : List Char → Char → Bool
  | a :: '-' :: b :: rest, c => (a ≤ c ∧ c ≤ b) || classMatch rest c
  | a :: rest, c => (a == c) || classMatch rest c
  | [], _ => false

/-- Glob match, fuel-indexed for structural recursion.  Every recursive call
strictly decreases `2 * pattern.length + s.length` (a bracket class consumes
at least its closing `]`), so any fuel above that measure makes the fuel
bound unreachable. -/
def globMatchF : Nat → List Char → List Char → Bool
  | 0, _, _ => false
  | fuel + 1, pat, s =>
      match pat with
      | [] => s.isEmpty
      | '*' :: ps =>
          globMatchF fuel ps s ||
            match s with
            | [] => false
            | _ :: s' => globMatchF fuel ('*' :: ps) s'
      | '?' :: ps =>
          match s with
          | _ :: s' => globMatchF fuel ps s'
          | [] => false
      | '[' :: ps =>
          match bracketScan ps with
          | some (neg, content, rest) =>
              match s with
              | c :: s' => (classMatch content c != neg) && globMatchF fuel rest s'
              | [] => false
          | none =>
              match s with
              | '[' :: s' => globMatchF fuel ps s'
              | _ => false
      | p :: ps =>
          match s with
          | c :: s' => p == c && globMatchF fuel ps s'
          | [] => false

/-- Glob match of a whole string against a whole pattern
(Python `fnmatch.fnmatch(s, pattern)` on POSIX). -/
def globMatch (pat s : List Char) : Bool :=
  globMatchF (2 * pat.length + s.length + 1) pat s

/-! ## PermissionService._matches_pattern -/

/-- `^([A-Za-z_][A-Za-z0-9_]*):([A-Za-z0-9_\-\*]+)$` — the `Tool:subcommand`
shape used by the matcher (subcommand alphabet: alphanumerics, `_`, `-`, `*`). -/
def isSubcmdChar (c : Char) : Bool := c.isAlphanum || c == '_' || c == '-' || c == '*'

/-- Parse `Tool:subcommand`; returns `(tool, subcommand)`. -/
def toolSubcmdParse (cs : List Char) : Option (List Char × List Char) :=
  match identSplit cs with
  | some (tool, ':' :: rest) =>
      if ¬rest.isEmpty ∧ rest.all isSubcmdChar then some (tool, rest) else none
  | _ => none

/-- `re.split(r"[\s:]", argument, maxsplit=1)[0]`: the leading token of the
argument, up to the first whitespace or colon. -/
def leadingToken (cs : List Char) : List Char :=
  cs.takeWhile fun c => ¬(isPySpace c || c == ':')

/-- `PermissionService._matches_pattern(rule_pattern, tool, argument)`. -/
def matches_pattern (rule_pattern tool : String) (argument : Option String) : Bool :=
  match toolArgParse rule_pattern.data with
  | some (pattern_tool, pattern_arg) =>
      if pattern_tool ≠ tool.data ∧ pattern_tool ≠ ['*'] then false
      else
        match argument with
        | none => pattern_arg = ['*']
        | some a => globMatch pattern_arg a.data
  | none =>
      match toolSubcmdParse rule_pattern.data with
      | some (pattern_tool, pattern_subcommand) =>
          if pattern_tool ≠ tool.data then false
          else
            match argument with
            | none => pattern_subcommand = ['*']
            | some a => globMatch pattern_subcommand (leadingToken a.data)
      | none => rule_pattern == tool || rule_pattern == "*"

/-! ## Permission service data model (models/schemas.py)

`PermissionService` operations perform a read-modify-write cycle on one
settings file per tier; they are embedded as functions from the stored
document to the written document plus a result (`Except` for raised
`ValueError`s).  `file_utils.read_json_file`/`write_json_file` are not among
the sources; per the spec's ScopeStore contract they load/save the document
unchanged, and writes are assumed to succeed. -/

structure PermissionRule where
  id : String
  type : String
  pattern : String
  scope : String

structure PermissionRuleCreate where
  type : String
  pattern : String
  scope : String

structure PermissionRuleUpdate where
  type : Option String
  pattern : Option String

def VALID_PERMISSION_MODES : List String := ["default", "acceptEdits", "dontAsk", "plan"]

/-- The uuid5 name string `f"{scope}-{type}-{pattern}"`; the uuid itself is a
deterministic (collision-free in practice) hash of this name, so the name
stands in for the id. -/
def ruleIdName (scope type pattern : String) : String :=
  ⟨scope.data ++ '-' :: type.data ++ '-' :: pattern.data⟩

/-- The string carried by a JSON string value. -/
def jsonStr? : Json → Option String
  | Json.str s => some s
  | _ => none

/-- The string elements of an optional JSON array (rule lists read by
`list_permissions`; a non-string entry would fail pydantic validation there,
and the theorems below only use documents whose rule lists are strings). -/
def strEntries : Option Json → List String
  | some (Json.arr xs) => xs.filterMap jsonStr?
  | _ => []

/-- The string rules stored under one category of a document's permissions
section (used to state document-difference properties). -/
def catOf (d : Json) (cat : String) : List String :=
  strEntries ((d.getKey "permissions").bind (fun p => p.getKey cat))

/-- `list_permissions` (user tier, `project_path=None`): the rules derived
from the user settings document, in allow, ask, deny order. -/
def list_permission_rules (doc : Json) : List PermissionRule :=
  match doc.getKey "permissions" with
  | some perms =>
      (strEntries (perms.getKey "allow")).map
        (fun p => ⟨ruleIdName "user" "allow" p, "allow", p, "user"⟩) ++
      (strEntries (perms.getKey "ask")).map
        (fun p => ⟨ruleIdName "user" "ask" p, "ask", p, "user"⟩) ++
      (strEntries (perms.getKey "deny")).map
        (fun p => ⟨ruleIdName "user" "deny" p, "deny", p, "user"⟩)
  | none => []

/-- The `defaultMode` of the settings built by `list_permissions`: the schema
default `"default"`, overwritten when the document's permissions section has
the key (a non-string value can never equal `"dontAsk"`; it is modelled as
`none`). -/
def list_default_mode (doc : Json) : Option String :=
  match doc.getKey "permissions" with
  | some perms =>
      match perms.getKey "defaultMode" with
      | some (Json.str s) => some s
      | some _ => none
      | none => some "default"
  | none => some "default"

/-- `evaluate_permission` after `list_permissions`: scan all deny rules, then
all ask rules, then all allow rules; otherwise fall back to the settings
(`settings` is always a truthy model instance, so only `defaultMode ==
"dontAsk"` decides the default branch). -/
def evaluate_core (rules : List PermissionRule) (defaultMode : Option String)
    (tool : String) (argument : Option String) : String :=
  if rules.any (fun r => r.type == "deny" && matches_pattern r.pattern tool argument) then "deny"
  else if rules.any (fun r => r.type == "ask" && matches_pattern r.pattern tool argument) then "ask"
  else if rules.any (fun r => r.type == "allow" && matches_pattern r.pattern tool argument) then "allow"
  else if defaultMode == some "dontAsk" then "allow"
  else "ask"

/-- `PermissionService.evaluate_permission(tool, argument)` against the user
settings document. -/
def evaluate_permission (doc : Json) (tool : String) (argument : Option String) : String :=
  evaluate_core (list_permission_rules doc) (list_default_mode doc) tool argument

/-- A settings document with the canonical permissions layout. -/
def permDoc (allowRules askRules denyRules : List String) : Json :=
  Json.obj [("permissions", Json.obj
    [("allow", Json.arr (allowRules.map Json.str)),
     ("ask", Json.arr (askRules.map Json.str)),
     ("deny", Json.arr (denyRules.map Json.str))])]

/-- Python `x in lst` on a JSON array. -/
def jsonListContains (xs : List Json) (j : Json) : Bool := xs.any (Json.beq · j)

/-- Python `lst.remove(x)` (first occurrence; callers guard membership). -/
def removeFirstJson : List Json → Json → List Json
  | [], _ => []
  | x :: xs, j => if Json.beq x j then xs else x :: removeFirstJson xs j

/-- `settings["permissions"][cat] = []` when the key is absent. -/
def ensureCat (perms : Json) (cat : String) : Json :=
  match perms.getKey cat with
  | some _ => perms
  | none => perms.setKey cat (Json.arr [])

/-- `add_permission(rule)` on the stored settings document of the rule's
tier.  Validation and the duplicate check happen before the write, so on
error the stored document is unchanged.  (A non-array category value would
raise in Python; it is read as an empty list here, and every theorem below
uses documents whose category values are arrays.) -/
def add_permission (doc : Json) (rule : PermissionRuleCreate) :
    Json × Except String PermissionRule :=
  if rule.type ∉ (["allow", "ask", "deny"] : List String) then
    (doc, .error ("Invalid rule type: " ++ rule.type ++ ". Must be 'allow', 'ask', or 'deny'"))
  else if ¬(validate_permission_pattern rule.pattern).1 then
    (doc, .error ("Invalid pattern format: " ++ rule.pattern))
  else
    let settings :=
      match doc.getKey "permissions" with
      | some _ => doc
      | none => doc.setKey "permissions"
          (Json.obj [("allow", Json.arr []), ("ask", Json.arr []), ("deny", Json.arr [])])
    let perms := (settings.getKey "permissions").getD (Json.obj [])
    let perms := ensureCat (ensureCat (ensureCat perms "allow") "ask") "deny"
    let settings := settings.setKey "permissions" perms
    let xs := match perms.getKey rule.type with
      | some (Json.arr xs) => xs
      | _ => []
    if jsonListContains xs (Json.str rule.pattern) then
      (doc, .error ("Pattern already exists in " ++ rule.type ++ " list: " ++ rule.pattern))
    else
      (settings.setKey "permissions" (perms.setKey rule.type (Json.arr (xs ++ [Json.str rule.pattern]))),
       .ok ⟨ruleIdName rule.scope rule.type rule.pattern, rule.type, rule.pattern, rule.scope⟩)

/-- `remove_permission(rule_id, "user")`: locate the rule by id, then rewrite
the tier document without its pattern (the write happens even when the
pattern is already gone from the list). -/
def remove_permission (doc : Json) (rule_id : String) : Json × Except String Unit :=
  match (list_permission_rules doc).find? (fun r => r.id == rule_id && r.scope == "user") with
  | none => (doc, .error ("Permission rule not found: " ++ rule_id))
  | some existing_rule =>
      match doc.getKey "permissions" with
      | none => (doc, .error "Permissions not found in settings")
      | some perms =>
          match perms.getKey existing_rule.type with
          | none => (doc, .error "Permissions not found in settings")
          | some v =>
              let xs := match v with | Json.arr xs => xs | _ => []
              let xs' := if jsonListContains xs (Json.str existing_rule.pattern)
                then removeFirstJson xs (Json.str existing_rule.pattern) else xs
              (doc.setKey "permissions" (perms.setKey existing_rule.type (Json.arr xs')), .ok ())

/-- Python `a or b` on an optional/possibly-empty string field. -/
def pyOrStr (o : Option String) (d : String) : String :=
  match o with
  | some s => if s.isEmpty then d else s
  | none => d

/-- `update_permission(rule_id, rule_update, "user")`: validate the patch
type, look the rule up by id, remove it (a persisted write), then re-add the
merged rule; an error raised by the add step propagates with the removal
already written. -/
def update_permission (doc : Json) (rule_id : String) (ru : PermissionRuleUpdate) :
    Json × Except String PermissionRule :=
  if (match ru.type with
      | some t => !t.isEmpty && decide (t ∉ (["allow", "ask", "deny"] : List String))
      | none => false) then
    (doc, .error ("Invalid rule type: " ++ ru.type.getD "" ++ ". Must be 'allow', 'ask', or 'deny'"))
  else
    match (list_permission_rules doc).find? (fun r => r.id == rule_id && r.scope == "user") with
    | none => (doc, .error ("Permission rule not found: " ++ rule_id))
    | some existing_rule =>
        let step := remove_permission doc rule_id
        match step.2 with
        | .error e => (step.1, .error e)
        | .ok _ =>
            add_permission step.1
              ⟨pyOrStr ru.type existing_rule.type, pyOrStr ru.pattern existing_rule.pattern, "user"⟩

/-! ## Sanitization pipeline (pattern_utils.sanitize_permission_rules) -/

structure MigratedEntry where
  original : String
  migrated : String
  category : String

structure RemovedEntry where
  pattern : String
  category : String
  reason : String

structure SanitizeResult where
  migrated : List MigratedEntry
  removed : List RemovedEntry
  sanitized_settings : Json

/-- One category's pass of `sanitize_permission_rules`: keep valid strings,
migrate what migrates to something valid, drop the rest (non-strings with
reason "Pattern is not a string", others with their classification error). -/
def sanitize_rules_list (category : String) : List Json → List String × List MigratedEntry × List RemovedEntry
  | [] => ([], [], [])
  | Json.str pattern :: rest =>
      if (validate_permission_pattern pattern).1 then
        ((sanitize_rules_list category rest).1.cons pattern,
         (sanitize_rules_list category rest).2.1,
         (sanitize_rules_list category rest).2.2)
      else
        match migrate_deprecated_pattern pattern with
        | some mp =>
            if (validate_permission_pattern mp).1 then
              ((sanitize_rules_list category rest).1.cons mp,
               ((sanitize_rules_list category rest).2.1).cons ⟨pattern, mp, category⟩,
               (sanitize_rules_list category rest).2.2)
            else
              ((sanitize_rules_list category rest).1,
               (sanitize_rules_list category rest).2.1,
               ((sanitize_rules_list category rest).2.2).cons
                 ⟨pattern, category, (validate_permission_pattern pattern).2.getD "Invalid pattern"⟩)
        | none =>
            ((sanitize_rules_list category rest).1,
             (sanitize_rules_list category rest).2.1,
             ((sanitize_rules_list category rest).2.2).cons
               ⟨pattern, category, (validate_permission_pattern pattern).2.getD "Invalid pattern"⟩)
  | Json.null :: rest =>
      ((sanitize_rules_list category rest).1,
       (sanitize_rules_list category rest).2.1,
       ((sanitize_rules_list category rest).2.2).cons ⟨pyStr Json.null, category, "Pattern is not a string"⟩)
  | Json.bool b :: rest =>
      ((sanitize_rules_list category rest).1,
       (sanitize_rules_list category rest).2.1,
       ((sanitize_rules_list category rest).2.2).cons ⟨pyStr (Json.bool b), category, "Pattern is not a string"⟩)
  | Json.num n :: rest =>
      ((sanitize_rules_list category rest).1,
       (sanitize_rules_list category rest).2.1,
       ((sanitize_rules_list category rest).2.2).cons ⟨pyStr (Json.num n), category, "Pattern is not a string"⟩)
  | Json.arr xs :: rest =>
      ((sanitize_rules_list category rest).1,
       (sanitize_rules_list category rest).2.1,
       ((sanitize_rules_list category rest).2.2).cons ⟨pyStr (Json.arr xs), category, "Pattern is not a string"⟩)
  | Json.obj kvs :: rest =>
      ((sanitize_rules_list category rest).1,
       (sanitize_rules_list category rest).2.1,
       ((sanitize_rules_list category rest).2.2).cons ⟨pyStr (Json.obj kvs), category, "Pattern is not a string"⟩)

/-- One iteration of the category loop of `sanitize_permission_rules`: read
the category's rules from the original permissions mapping; when they are a
list, store the sanitized list in the settings copy and append the
migration/removal reports. -/
def sanitizeStep (permissions : Json)
    (acc : Json × List MigratedEntry × List RemovedEntry) (category : String) :
    Json × List MigratedEntry × List RemovedEntry :=
  match permissions.getKey category with
  | some (Json.arr rules) =>
      (acc.1.setKey category (Json.arr ((sanitize_rules_list category rules).1.map Json.str)),
       acc.2.1 ++ (sanitize_rules_list category rules).2.1,
       acc.2.2 ++ (sanitize_rules_list category rules).2.2)
  | _ => acc

/-- `sanitize_permission_rules(settings)`: when the permissions section is a
mapping, rewrite each list-valued category (allow, ask, deny, in that order)
with its sanitized rules, collecting the migration/removal reports; otherwise
return the settings untouched. -/
def sanitize_permission_rules (settings : Json) : SanitizeResult :=
  match settings.getKey "permissions" with
  | some (Json.obj pkvs) =>
      let res := (["allow", "ask", "deny"] : List String).foldl
        (sanitizeStep (Json.obj pkvs))
        (Json.obj pkvs, ([] : List MigratedEntry), ([] : List RemovedEntry))
      ⟨res.2.1, res.2.2, settings.setKey "permissions" res.1⟩
  | _ => ⟨[], [], settings⟩

/-! ## ConfigService: deep merge, scoped write, resolution -/

mutual

/-- Size of a JSON tree, bounding the recursion depth of `_deep_merge`. -/
def Json.size : Json → Nat
  | .obj kvs => 1 + Json.sizeK kvs
  | _ => 1

/-- Size of an object's entry list. -/
def Json.sizeK : List (String × Json) → Nat
  | [] => 1
  | (_, v) :: rest => 1 + Json.size v + Json.sizeK rest

end

mutual

/-- `ConfigService._deep_merge(base, override)`, fuel-indexed: mapping-valued
keys merge recursively, anything else is replaced wholesale by the override
(the non-mapping base case only arises from the recursion's leaves).  Each
recursive call strictly decreases the override's size, so fuel
`Json.size override` makes the fuel bound unreachable. -/
def deepMergeFuel : Nat → Json → Json → Json
  | 0, _, override => override
  | fuel + 1, Json.obj b, Json.obj o => Json.obj (deepMergeKvsFuel fuel b o)
  | _ + 1, _, override => override

/-- The `for key, value in override.items()` loop of `_deep_merge`. -/
def deepMergeKvsFuel : Nat → List (String × Json) → List (String × Json) → List (String × Json)
  | _, result, [] => result
  | 0, result, _ :: _ => result
  | fuel + 1, result, (k, Json.obj ov) :: rest =>
      deepMergeKvsFuel fuel
        (match getA result k with
         | some (Json.obj rb) => setA result k (deepMergeFuel fuel (Json.obj rb) (Json.obj ov))
         | _ => setA result k (Json.obj ov))
        rest
  | fuel + 1, result, (k, v) :: rest => deepMergeKvsFuel fuel (setA result k v) rest

end

/-- `ConfigService._deep_merge(base, override)`. -/
def deep_merge (base override : Json) : Json :=
  deepMergeFuel (Json.size override) base override

/-- `ConfigService.update_settings(scope, settings)`: read the stored
document, deep-merge the incoming partial document over it, sanitize, write.
Returns the written document and the sanitize report. -/
def config_update_settings (existing_settings new_settings : Json) : Json × SanitizeResult :=
  let merged := deep_merge existing_settings new_settings
  let res := sanitize_permission_rules merged
  (res.sanitized_settings, res)

/-- The four tier documents returned by `get_all_scoped_settings`. -/
structure ScopedSettings where
  managed : Json
  «local» : Json
  project : Json
  user : Json

def SCOPE_PRIORITY : List String := ["managed", "local", "project", "user"]

/-- `scoped_settings.get(scope, {})`. -/
def ScopedSettings.get (s : ScopedSettings) (scope : String) : Json :=
  if scope = "managed" then s.managed
  else if scope = "local" then s.«local»
  else if scope = "project" then s.project
  else if scope = "user" then s.user
  else Json.obj []

/-- Is this value the Python `None` object (`is None`)? -/
def Json.isNull : Json → Bool
  | Json.null => true
  | _ => false

/-- Python `key.split(".")` on the character level (`"" → [""]`,
`"a.b" → ["a","b"]`). -/
def splitOnChar (sep : Char) : List Char → List (List Char)
  | [] => [[]]
  | c :: rest =>
      let r := splitOnChar sep rest
      if c = sep then [] :: r
      else
        match r with
        | h :: t => (c :: h) :: t
        | [] => [[c]]

/-- `key.split(".")` as strings. -/
def pySplitDot (key : String) : List String :=
  (splitOnChar '.' key.data).map fun l => (⟨l⟩ : String)

/-- `ConfigService._get_nested_value(d, key)` on the already-split key parts:
walk the mappings, returning `(value, found)`; missing paths yield
`(None, False)`. -/
def get_nested_value (d : Json) : List String → Json × Bool
  | [] => (d, true)
  | part :: parts =>
      match d with
      | Json.obj kvs =>
          match getA kvs part with
          | some v => get_nested_value v parts
          | none => (Json.null, false)
      | _ => (Json.null, false)

/-- `ConfigService._resolve_key(key, scoped_settings)` → `(effective_value,
source_scope, values_by_scope)`.  Python initialises `effective_value = None`
and tests `effective_value is None` before adopting a tier's value; JSON
`null` is that same `None`. -/
def resolve_key (key : String) (sc : ScopedSettings) :
    Json × Option String × List (String × Json) :=
  SCOPE_PRIORITY.foldl
    (fun acc scope =>
      let vf := get_nested_value (sc.get scope) (pySplitDot key)
      if vf.2 then
        let vbs := acc.2.2 ++ [(scope, vf.1)]
        if (acc.1).isNull then (vf.1, some scope, vbs)
        else (acc.1, acc.2.1, vbs)
      else acc)
    (Json.null, none, [])

/-- Select the list of the given kind (used to state properties uniformly
over the allow/ask/deny categories of `permDoc`). -/
def kindSel (k : String) (allowRules askRules denyRules : List String) : List String :=
  if k = "allow" then allowRules
  else if k = "ask" then askRules
  else denyRules

/-- First-occurrence erase on a string list (the effect of Python
`list.remove` on a list of strings). -/
def eraseFirstStr : List String → String → List String
  | [], _ => []
  | x :: xs, s => if x = s then xs else x :: eraseFirstStr xs s

/-! # Lemmas about the association-list primitives -/

theorem getA_setA_self (l : List (String × Json)) (k : String) (v : Json) :
    getA (setA l k v) k = some v := by
  induction l with
  | nil => simp [setA, getA]
  | cons kv t ih =>
      obtain ⟨k', v'⟩ := kv
      by_cases h : k' = k <;> simp [setA, getA, h, ih]

theorem getA_setA_ne (l : List (String × Json)) {k k' : String} (v : Json) (h : k' ≠ k) :
    getA (setA l k v) k' = getA l k' := by
  induction l with
  | nil => simp [setA, getA, Ne.symm h]
  | cons kv t ih =>
      obtain ⟨k'', v''⟩ := kv
      by_cases h2 : k'' = k
      · subst h2
        simp [setA, getA, Ne.symm h]
      · simp [setA, getA, h2, ih]

theorem setA_getA_eq {l : List (String × Json)} {k : String} {v : Json}
    (h : getA l k = some v) : setA l k v = l := by
  induction l with
  | nil => simp [getA] at h
  | cons kv t ih =>
      obtain ⟨k', v'⟩ := kv
      by_cases h2 : k' = k
      · subst h2
        simp [getA] at h
        simp [setA, h]
      · simp [getA, h2] at h
        simp [setA, h2, ih h]

theorem getKey_setKey_self (kvs : List (String × Json)) (k : String) (v : Json) :
    ((Json.obj kvs).setKey k v).getKey k = some v := by
  simp [Json.setKey, Json.getKey, getA_setA_self]

theorem getKey_setKey_ne (kvs : List (String × Json)) {k k' : String} (v : Json) (h : k' ≠ k) :
    ((Json.obj kvs).setKey k v).getKey k' = (Json.obj kvs).getKey k' := by
  simp [Json.setKey, Json.getKey, getA_setA_ne _ _ h]

theorem setKey_getKey_eq {j : Json} {k : String} {v : Json}
    (h : j.getKey k = some v) : j.setKey k v = j := by
  cases j <;> simp [Json.getKey] at h
  simp [Json.setKey, setA_getA_eq h]

/-! # Lemmas about the pattern grammar's parsers -/

theorem data_mk (l : List Char) : (⟨l⟩ : String).data = l := rfl

theorem data_append (s t : String) : (s ++ t).data = s.data ++ t.data := by
  cases s; cases t; rfl

theorem takeWhile_append_of_all {p : Char → Bool} {l1 : List Char} (l2 : List Char)
    (h1 : ∀ x ∈ l1, p x = true) :
    (l1 ++ l2).takeWhile p = l1 ++ l2.takeWhile p ∧ (l1 ++ l2).dropWhile p = l2.dropWhile p := by
  induction l1 with
  | nil => simp
  | cons a t ih =>
      have ha := h1 a (by simp)
      have ih' := ih fun x hx => h1 x (by simp [hx])
      simp [List.takeWhile_cons, List.dropWhile_cons, ha, ih'.1, ih'.2]

theorem identSplit_some {cs t r : List Char} (h : identSplit cs = some (t, r)) :
    cs = t ++ r ∧ ∃ c ts, t = c :: ts ∧ isIdentStart c = true ∧ ∀ x ∈ ts, isIdentChar x = true := by
  cases cs with
  | nil => simp [identSplit] at h
  | cons c rest =>
      simp only [identSplit] at h
      by_cases hc : isIdentStart c = true
      · rw [if_pos hc] at h
        simp only [Option.some.injEq, Prod.mk.injEq] at h
        obtain ⟨ht, hr⟩ := h
        subst ht; subst hr
        exact ⟨by simp [List.takeWhile_append_dropWhile],
          c, rest.takeWhile isIdentChar, rfl, hc, fun x hx => List.mem_takeWhile_imp hx⟩
      · rw [if_neg hc] at h; cases h

theorem identSplit_mk {c : Char} {ts : List Char} (r : List Char) (hc : isIdentStart c = true)
    (hts : ∀ x ∈ ts, isIdentChar x = true)
    (hr : ∀ x xs, r = x :: xs → isIdentChar x = false) :
    identSplit (c :: ts ++ r) = some (c :: ts, r) := by
  have hstep : identSplit (c :: ts ++ r) =
      if isIdentStart c = true then
        some (c :: (ts ++ r).takeWhile isIdentChar, (ts ++ r).dropWhile isIdentChar)
      else none := rfl
  rw [hstep, if_pos hc]
  have h := takeWhile_append_of_all (p := isIdentChar) r hts
  have hr' : r.takeWhile isIdentChar = [] ∧ r.dropWhile isIdentChar = r := by
    cases r with
    | nil => simp
    | cons x xs => simp [List.takeWhile_cons, List.dropWhile_cons, hr x xs rfl]
  rw [h.1, h.2, hr'.1, hr'.2]
  simp

theorem toolArgParse_some {cs t a : List Char} (h : toolArgParse cs = some (t, a)) :
    cs = t ++ ('(' :: (a ++ [')'])) ∧ a ≠ [] ∧
      ∃ c ts, t = c :: ts ∧ isIdentStart c = true ∧ ∀ x ∈ ts, isIdentChar x = true := by
  unfold toolArgParse at h
  split at h
  next tool rest heq =>
    split at h
    next hcond =>
      simp only [Option.some.injEq, Prod.mk.injEq] at h
      obtain ⟨ht, ha⟩ := h
      subst ht; subst ha
      obtain ⟨hcs, hshape⟩ := identSplit_some heq
      have hne : rest ≠ [] := by
        intro hr; rw [hr] at hcond; simp at hcond
      have hlast : rest.getLast hne = ')' := by
        have := List.getLast?_eq_getLast rest hne
        rw [this] at hcond
        simpa using hcond.1
      have hrest : rest.dropLast ++ [')'] = rest := by
        conv_rhs => rw [← List.dropLast_append_getLast hne]
        rw [hlast]
      constructor
      · conv_rhs => rw [hrest]
        exact hcs
      · refine ⟨?_, hshape⟩
        have hlen := hcond.2
        have : rest.dropLast.length = rest.length - 1 := List.length_dropLast rest
        intro hnil
        rw [hnil] at this
        simp at this
        omega
    next => cases h
  next => cases h

theorem toolArgParse_mk {t a : List Char}
    (hshape : ∃ c ts, t = c :: ts ∧ isIdentStart c = true ∧ ∀ x ∈ ts, isIdentChar x = true)
    (ha : a ≠ []) :
    toolArgParse (t ++ ('(' :: (a ++ [')']))) = some (t, a) := by
  obtain ⟨c, ts, rfl, hc, hts⟩ := hshape
  have hid2 : identSplit ((c :: ts) ++ ('(' :: (a ++ [')']))) =
      some (c :: ts, '(' :: (a ++ [')'])) :=
    identSplit_mk ('(' :: (a ++ [')'])) hc hts (by intro x xs hx; cases hx; rfl)
  have h1 : (a ++ [')']).getLast? = some ')' := List.getLast?_concat a
  have h2 : 2 ≤ (a ++ [')']).length := by
    have : a.length ≠ 0 := by simpa using ha
    simp
    omega
  simp only [toolArgParse, hid2]
  change (if (a ++ [')']).getLast? = some ')' ∧ 2 ≤ (a ++ [')']).length then
      some (c :: ts, (a ++ [')']).dropLast) else none) = some (c :: ts, a)
  rw [if_pos ⟨h1, h2⟩, List.dropLast_concat]

theorem endsColonStar_decomp {cs : List Char} (h : endsColonStar cs = true) :
    cs = cs.dropLast.dropLast ++ [':', '*'] := by
  unfold endsColonStar at h
  split at h
  next tl heq =>
    have hcs : cs = tl.reverse ++ [':', '*'] := by
      have := congrArg List.reverse heq
      simpa using this
    rw [hcs]
    have : (tl.reverse ++ [':', '*']).dropLast.dropLast = tl.reverse := by
      have h1 : tl.reverse ++ [':', '*'] = (tl.reverse ++ [':']) ++ ['*'] := by simp
      rw [h1, List.dropLast_concat, List.dropLast_concat]
    rw [this]
  next => cases h

theorem endsColonStar_space_star (l : List Char) :
    endsColonStar (l ++ [' ', '*']) = false := by
  unfold endsColonStar
  have : (l ++ [' ', '*']).reverse = '*' :: ' ' :: l.reverse := by
    simp
  rw [this]
  rfl

/-! # Claim C4 -/

/-- C4: migration never yields an unclassifiable pattern — for every string
pattern `p`, if `migrate_deprecated_pattern p` returns a value then
`validate_permission_pattern` classifies that value as valid. -/
theorem migrate_yields_valid (p m : String) (h : migrate_deprecated_pattern p = some m) :
    (validate_permission_pattern m).1 = true := by
  unfold migrate_deprecated_pattern at h
  by_cases h1 : hasNewline p.data = true
  · rw [if_pos h1] at h; cases h
  rw [if_neg h1] at h
  by_cases h2 : MAX_PATTERN_LENGTH < p.data.length
  · rw [if_pos h2] at h; cases h
  rw [if_neg h2] at h
  cases hp : toolArgParse p.data with
  | none => rw [hp] at h; simp at h
  | some pr =>
      obtain ⟨tool, arg⟩ := pr
      rw [hp] at h
      have h' : (if tool ≠ "MCP".data ∧ endsColonStar arg = true then
          some (⟨tool ++ ('(' :: (colonStarSub arg ++ [')']))⟩ : String) else none) = some m := h
      clear h
      by_cases h3 : tool ≠ "MCP".data ∧ endsColonStar arg = true
      · rw [if_pos h3] at h'
        simp only [Option.some.injEq] at h'
        obtain rfl := h'.symm
        obtain ⟨hmcp, hends⟩ := h3
        obtain ⟨hcs, hane, hshape⟩ := toolArgParse_some hp
        have hdecomp := endsColonStar_decomp hends
        have hsub : colonStarSub arg = arg.dropLast.dropLast ++ [' ', '*'] := by
          unfold colonStarSub
          rw [if_pos hends]
        set A := arg.dropLast.dropLast with hA
        rw [hsub]
        -- characters of `p` contain no newline
        have hnl' : p.data.any (fun c => c == '\n' || c == '\r') = false := by
          have : hasNewline p.data = false := by simpa using h1
          simpa [hasNewline] using this
        have hcharP : ∀ x ∈ p.data, (x == '\n' || x == '\r') = false :=
          fun x hx => by
            rcases List.any_eq_false.mp hnl' x hx with h'
            simpa using h'
        have hsubA : ∀ x ∈ A, x ∈ p.data := by
          intro x hx
          have hx' : x ∈ arg :=
            List.Sublist.subset (List.Sublist.trans (List.dropLast_sublist _)
              (List.dropLast_sublist arg)) hx
          rw [hcs]
          exact List.mem_append_right _ (List.mem_cons_of_mem _ (List.mem_append_left _ hx'))
        have hsubT : ∀ x ∈ tool, x ∈ p.data := by
          intro x hx
          rw [hcs]
          exact List.mem_append_left _ hx
        -- the three validation guards
        have g1 : isBlank (tool ++ ('(' :: ((A ++ [' ', '*']) ++ [')']))) = false := by
          cases hall : (tool ++ ('(' :: ((A ++ [' ', '*']) ++ [')']))).all isPySpace
          · exact hall
          · exact absurd (List.all_eq_true.mp hall '('
              (List.mem_append_right _ (List.mem_cons_self _ _))) (by decide)
        have g2 : hasNewline (tool ++ ('(' :: ((A ++ [' ', '*']) ++ [')']))) = false := by
          unfold hasNewline
          rw [List.any_eq_false]
          rw [List.forall_mem_append]
          refine ⟨fun x hx => by simpa using hcharP x (hsubT x hx), ?_⟩
          rw [List.forall_mem_cons]
          refine ⟨by decide, ?_⟩
          rw [List.forall_mem_append]
          refine ⟨?_, by decide⟩
          rw [List.forall_mem_append]
          exact ⟨fun x hx => by simpa using hcharP x (hsubA x hx), by decide⟩
        have g3 : ¬ MAX_PATTERN_LENGTH < (tool ++ ('(' :: ((A ++ [' ', '*']) ++ [')']))).length := by
          have hlp : p.data.length = tool.length + 1 + arg.length + 1 := by
            rw [hcs]
            simp only [List.length_append, List.length_cons, List.length_nil]
            omega
          have hla : arg.length = A.length + 2 := by
            conv_lhs => rw [hdecomp]
            simp only [List.length_append, List.length_cons, List.length_nil]
          have hll : (tool ++ ('(' :: ((A ++ [' ', '*']) ++ [')']))).length
              = tool.length + 1 + (A.length + 2) + 1 := by
            simp only [List.length_append, List.length_cons, List.length_nil]
            omega
          omega
        have hparse : toolArgParse (tool ++ ('(' :: ((A ++ [' ', '*']) ++ [')'])))
            = some (tool, A ++ [' ', '*']) := toolArgParse_mk hshape (by simp)
        have hends' : endsColonStar (A ++ [' ', '*']) = false := endsColonStar_space_star A
        unfold validate_permission_pattern
        rw [data_mk]
        have g1' : isBlank (tool ++ ('(' :: (A ++ [' ', '*', ')']))) = false := by
          simpa using g1
        have g2' : hasNewline (tool ++ ('(' :: (A ++ [' ', '*', ')']))) = false := by
          simpa using g2
        have g3' : ¬ MAX_PATTERN_LENGTH < (tool ++ ('(' :: (A ++ [' ', '*', ')']))).length := by
          simpa using g3
        have hparse' : toolArgParse (tool ++ ('(' :: (A ++ [' ', '*', ')'])))
            = some (tool, A ++ [' ', '*']) := by
          simpa using hparse
        simp [g1', g2', g3', hparse', hends']
        have g3'' : ¬ MAX_PATTERN_LENGTH < tool.length + (A.length + 3 + 1) := by
          have hg := g3
          simp only [List.length_append, List.length_cons, List.length_nil] at hg
          omega
        rw [if_neg g3'']
      · rw [if_neg h3] at h'
        cases h'

/-- C4 witness: `migrate_yields_valid` instantiated at `"Bash(npm run:*)"`,
whose migration is `"Bash(npm run *)"`. -/
theorem migrate_yields_valid_witness :
    migrate_deprecated_pattern "Bash(npm run:*)" = some "Bash(npm run *)" ∧
    (validate_permission_pattern "Bash(npm run *)").1 = true :=
  ⟨rfl, migrate_yields_valid "Bash(npm run:*)" "Bash(npm run *)" rfl⟩

/-! # Claim C5 -/

/-- C5: the classifier accepts `"MCP(server:*)"` (MCP exemption) and
`"Task:*"` (whole-pattern tool wildcard), rejects `"Task:explore"`, and
rejects every `Tool(argument)` pattern whose tool is not `MCP` and whose
argument ends with the literal suffix `:*` (e.g. `"Bash(npm run:*)"`). -/
theorem classify_colon_star_rules :
    (validate_permission_pattern "MCP(server:*)").1 = true ∧
    (validate_permission_pattern "Task:*").1 = true ∧
    (validate_permission_pattern "Task:explore").1 = false ∧
    (validate_permission_pattern "Bash(npm run:*)").1 = false ∧
    ∀ (p : String) (t a : List Char),
      toolArgParse p.data = some (t, a) → t ≠ "MCP".data → endsColonStar a = true →
      (validate_permission_pattern p).1 = false := by
  refine ⟨rfl, rfl, rfl, rfl, ?_⟩
  intro p t a hp hmcp hends
  unfold validate_permission_pattern
  by_cases h1 : isBlank p.data = true
  · rw [if_pos h1]
  · rw [if_neg h1]
    by_cases h2 : hasNewline p.data = true
    · rw [if_pos h2]
    · rw [if_neg h2]
      by_cases h3 : MAX_PATTERN_LENGTH < p.data.length
      · rw [if_pos h3]
      · rw [if_neg h3]
        simp only [hp]
        rw [if_pos ⟨hmcp, hends⟩]

/-- C5 witness: the universal rejection applied at `"Bash(npm run:*)"`. -/
theorem classify_colon_star_rules_witness :
    (validate_permission_pattern "Bash(npm run:*)").1 = false :=
  classify_colon_star_rules.2.2.2.2 "Bash(npm run:*)" "Bash".data "npm run:*".data
    rfl (by decide) rfl

/-! # Claim C2 -/

/-- C2: a matching deny rule forces the verdict `"deny"` regardless of any
matching ask or allow rules; in particular with `deny=["Bash(rm *)"]` and
`allow=["Bash(*)"]`, evaluating `Bash` with argument `"rm -rf /"` yields
`"deny"` even though the allow rule also matches. -/
theorem evaluate_deny_precedence :
    (∀ (rules : List PermissionRule) (dm : Option String) (tool : String) (arg : Option String),
        (∃ r ∈ rules, r.type = "deny" ∧ matches_pattern r.pattern tool arg = true) →
        evaluate_core rules dm tool arg = "deny") ∧
    evaluate_permission (permDoc ["Bash(*)"] [] ["Bash(rm *)"]) "Bash" (some "rm -rf /") = "deny" := by
  constructor
  · rintro rules dm tool arg ⟨r, hr, ht, hm⟩
    have hany : rules.any (fun r => r.type == "deny" && matches_pattern r.pattern tool arg) = true :=
      List.any_eq_true.mpr ⟨r, hr, by simp [ht, hm]⟩
    unfold evaluate_core
    rw [if_pos hany]
  · rfl

/-- C2 witness: the universal part applied to the concrete deny rule set. -/
theorem evaluate_deny_precedence_witness :
    evaluate_core [⟨ruleIdName "user" "deny" "Bash(rm *)", "deny", "Bash(rm *)", "user"⟩]
      (some "default") "Bash" (some "rm -rf /") = "deny" :=
  evaluate_deny_precedence.1 _ _ _ _ ⟨_, List.mem_singleton_self _, rfl, rfl⟩

/-! # Claim C6 -/

/-- C6: evaluation is total — when no deny, ask, or allow rule matches, the
result is `"allow"` exactly when the settings' defaultMode is `"dontAsk"`
and `"ask"` in every other case; and the evaluator always returns one of
`"allow"`, `"ask"`, `"deny"`. -/
theorem evaluate_total_default :
    (∀ (rules : List PermissionRule) (dm : Option String) (tool : String) (arg : Option String),
        (∀ r ∈ rules, matches_pattern r.pattern tool arg = false) →
        evaluate_core rules dm tool arg = if dm = some "dontAsk" then "allow" else "ask") ∧
    (∀ (rules : List PermissionRule) (dm : Option String) (tool : String) (arg : Option String),
        evaluate_core rules dm tool arg = "allow" ∨ evaluate_core rules dm tool arg = "ask" ∨
        evaluate_core rules dm tool arg = "deny") := by
  constructor
  · intro rules dm tool arg hnone
    have hany : ∀ ty : String,
        rules.any (fun r => r.type == ty && matches_pattern r.pattern tool arg) = false := by
      intro ty
      rw [List.any_eq_false]
      intro r hr
      simp [hnone r hr]
    unfold evaluate_core
    rw [hany "deny", hany "ask", hany "allow"]
    simp only [Bool.false_eq_true, if_false]
    by_cases hd : dm = some "dontAsk" <;> simp [hd]
  · intro rules dm tool arg
    unfold evaluate_core
    split_ifs <;> simp

/-- C6 witness: no rules at all — `"allow"` under `dontAsk`, `"ask"` under
the default mode. -/
theorem evaluate_total_default_witness :
    evaluate_core [] (some "dontAsk") "WebSearch" none = "allow" ∧
    evaluate_core [] (some "default") "WebSearch" none = "ask" :=
  ⟨by simpa using evaluate_total_default.1 [] (some "dontAsk") "WebSearch" none (by simp),
   by simpa using evaluate_total_default.1 [] (some "default") "WebSearch" none (by simp)⟩

/-! # Claim C8 -/

/-- C8 counterexample: the claim predicts that the rule pattern `"*(foo)"`
matches tool `"Bash"` with argument `"foo"` (since `"foo"` glob-matches
`foo`), but the matcher returns `false`: `*` is not an identifier, so the
pattern never parses into the `Tool(arg)` branch. -/
theorem star_tool_pattern_no_match :
    globMatch "foo".data "foo".data = true ∧
    matches_pattern "*(foo)" "Bash" (some "foo") = false :=
  ⟨rfl, rfl⟩

/-- C8 amended: a rule pattern of the form `"*(p)"` never takes the
`Tool(arg)` branch (the branch's tool part must be an identifier, so its
`pattern_tool != "*"` disjunct is unreachable); such a rule matches an
invocation only when the tool name literally equals the whole string
`"*(p)"`. -/
theorem star_tool_pattern_literal_only (p t : String) (a : Option String) :
    matches_pattern ("*(" ++ p ++ ")") t a = (("*(" ++ p ++ ")") == t) := by
  have hd : ("*(" ++ p ++ ")").data = '*' :: '(' :: (p.data ++ [')']) := by
    rw [data_append, data_append]
    rfl
  have h1 : toolArgParse ('*' :: '(' :: (p.data ++ [')'])) = none := rfl
  have h2 : toolSubcmdParse ('*' :: '(' :: (p.data ++ [')'])) = none := rfl
  have h3 : (("*(" ++ p ++ ")") == "*") = false := by
    apply beq_eq_false_iff_ne.mpr
    intro he
    have hlen := congrArg (fun s => s.data.length) he
    simp [hd] at hlen
  unfold matches_pattern
  rw [hd]
  simp only [h1, h2]
  rw [h3, Bool.or_false]

/-! # Claim C1 -/

/-- C1: evaluation of `_resolve_key` at the failing input.  The managed tier
defines `"a"` with an explicit JSON `null` and the user tier defines it as
`1`; the claimed invariant requires `effectiveValue = null` with
`sourceTier = "managed"`, but the code's `effective_value is None` guard
treats the adopted `null` like "nothing found yet", so the user tier
overwrites both fields: the result is `(1, "user")` (while `valuesByTier`
does record the managed `null`, showing the tier counts as defining the
path). -/
theorem resolve_key_null_shadowed :
    resolve_key "a"
        ⟨Json.obj [("a", Json.null)], Json.obj [], Json.obj [], Json.obj [("a", Json.num 1)]⟩
      = (Json.num 1, some "user", [("managed", Json.null), ("user", Json.num 1)]) := rfl

/-! # Claim C7 -/

/-- C7: sanitization of `allow=["Bash(ls *)", "Bash(ls:*)", 42]` keeps the
valid string unchanged, migrates `"Bash(ls:*)"` to `"Bash(ls *)"` (recorded
under `migrated`), drops the non-string `42` with reason "Pattern is not a
string" (recorded under `removed`), and preserves the duplicate produced by
migration: the sanitized allow list is `["Bash(ls *)", "Bash(ls *)"]`. -/
theorem sanitize_example_exact :
    sanitize_permission_rules
        (Json.obj [("permissions", Json.obj [("allow",
          Json.arr [Json.str "Bash(ls *)", Json.str "Bash(ls:*)", Json.num 42])])])
      = ⟨[⟨"Bash(ls:*)", "Bash(ls *)", "allow"⟩],
         [⟨"42", "allow", "Pattern is not a string"⟩],
         Json.obj [("permissions", Json.obj [("allow",
           Json.arr [Json.str "Bash(ls *)", Json.str "Bash(ls *)"])])]⟩ := rfl

/-! # Claim C3 -/

/-- C3 counterexample: `add_permission` persists a settings document without
sanitizing it.  Starting from a stored document whose allow list holds the
unclassifiable pattern `"not valid!!"`, adding the valid deny rule `"Bash"`
succeeds and writes the document with `"not valid!!"` still present — a
pattern in a document written by a rule-add operation that does not classify
successfully, contradicting the claim. -/
theorem add_permission_skips_sanitization :
    (add_permission (permDoc ["not valid!!"] [] []) ⟨"deny", "Bash", "user"⟩).1
        = permDoc ["not valid!!"] [] ["Bash"] ∧
    (add_permission (permDoc ["not valid!!"] [] []) ⟨"deny", "Bash", "user"⟩).2
        = Except.ok ⟨ruleIdName "user" "deny" "Bash", "deny", "Bash", "user"⟩ ∧
    (validate_permission_pattern "not valid!!").1 = false :=
  ⟨rfl, rfl, rfl⟩

/-! # Lemmas about the sanitization pipeline -/

theorem sanitize_rules_list_valid (cat : String) (rs : List Json) :
    ∀ s ∈ (sanitize_rules_list cat rs).1, (validate_permission_pattern s).1 = true := by
  induction rs with
  | nil => intro s hs; simp [sanitize_rules_list] at hs
  | cons j rest ih =>
      intro s hs
      cases j with
      | str pattern =>
          rw [sanitize_rules_list] at hs
          by_cases hv : (validate_permission_pattern pattern).1 = true
          · rw [if_pos hv] at hs
            rcases List.mem_cons.mp hs with rfl | hs
            · exact hv
            · exact ih s hs
          · rw [if_neg hv] at hs
            cases hm : migrate_deprecated_pattern pattern with
            | some mp =>
                simp only [hm] at hs
                by_cases hmv : (validate_permission_pattern mp).1 = true
                · rw [if_pos hmv] at hs
                  rcases List.mem_cons.mp hs with rfl | hs
                  · exact hmv
                  · exact ih s hs
                · rw [if_neg hmv] at hs
                  exact ih s hs
            | none =>
                simp only [hm] at hs
                exact ih s hs
      | null => exact ih s (by rw [sanitize_rules_list] at hs; exact hs)
      | bool b => exact ih s (by rw [sanitize_rules_list] at hs; exact hs)
      | num n => exact ih s (by rw [sanitize_rules_list] at hs; exact hs)
      | arr xs => exact ih s (by rw [sanitize_rules_list] at hs; exact hs)
      | obj kvs => exact ih s (by rw [sanitize_rules_list] at hs; exact hs)

theorem sanitize_rules_list_of_valid (cat : String) (cl : List String)
    (h : ∀ s ∈ cl, (validate_permission_pattern s).1 = true) :
    sanitize_rules_list cat (cl.map Json.str) = (cl, [], []) := by
  induction cl with
  | nil => rfl
  | cons s rest ih =>
      have hv := h s (by simp)
      have ih' := ih fun x hx => h x (by simp [hx])
      simp only [List.map_cons]
      rw [sanitize_rules_list, if_pos hv, ih']

theorem getKey_setKey_ne' (j : Json) {k k' : String} (v : Json) (h : k' ≠ k) :
    (j.setKey k v).getKey k' = j.getKey k' := by
  cases j <;> simp [Json.setKey, Json.getKey]
  exact getA_setA_ne _ _ h

theorem sanitizeStep_obj {p0 : Json} {acc : Json × List MigratedEntry × List RemovedEntry}
    {c : String} (hobj : ∃ kvs, acc.1 = Json.obj kvs) :
    ∃ kvs, (sanitizeStep p0 acc c).1 = Json.obj kvs := by
  unfold sanitizeStep
  split
  · obtain ⟨kvs, hk⟩ := hobj
    rw [hk]
    exact ⟨_, rfl⟩
  · exact hobj

theorem sanitizeStep_getKey_ne (p0 : Json) (acc : Json × List MigratedEntry × List RemovedEntry)
    {c c' : String} (hne : c' ≠ c) :
    ((sanitizeStep p0 acc c).1).getKey c' = (acc.1).getKey c' := by
  unfold sanitizeStep
  split
  · exact getKey_setKey_ne' _ _ hne
  · rfl

theorem sanitizeStep_getKey_arr {p0 : Json} {acc : Json × List MigratedEntry × List RemovedEntry}
    {c : String} {rs : List Json} (hobj : ∃ kvs, acc.1 = Json.obj kvs)
    (h : p0.getKey c = some (Json.arr rs)) :
    ((sanitizeStep p0 acc c).1).getKey c
      = some (Json.arr ((sanitize_rules_list c rs).1.map Json.str)) := by
  obtain ⟨kvs, hk⟩ := hobj
  unfold sanitizeStep
  simp only [h]
  rw [hk]
  exact getKey_setKey_self ..

theorem sanitizeStep_notarr {p0 : Json} {acc : Json × List MigratedEntry × List RemovedEntry}
    {c : String} (h : ∀ rs, p0.getKey c ≠ some (Json.arr rs)) :
    sanitizeStep p0 acc c = acc := by
  unfold sanitizeStep
  split
  next rs heq => exact absurd heq (h rs)
  next => rfl

theorem sanitize_fold_getKey (pkvs : List (String × Json)) (cat : String)
    (hcat : cat = "allow" ∨ cat = "ask" ∨ cat = "deny") :
    (∃ rs, (Json.obj pkvs).getKey cat = some (Json.arr rs) ∧
        (((["allow", "ask", "deny"] : List String).foldl (sanitizeStep (Json.obj pkvs))
            (Json.obj pkvs, [], [])).1).getKey cat
          = some (Json.arr ((sanitize_rules_list cat rs).1.map Json.str))) ∨
    ((∀ rs, (Json.obj pkvs).getKey cat ≠ some (Json.arr rs)) ∧
        (((["allow", "ask", "deny"] : List String).foldl (sanitizeStep (Json.obj pkvs))
            (Json.obj pkvs, [], [])).1).getKey cat = (Json.obj pkvs).getKey cat) := by
  have hfold : ((["allow", "ask", "deny"] : List String).foldl (sanitizeStep (Json.obj pkvs))
      (Json.obj pkvs, [], []))
      = sanitizeStep (Json.obj pkvs) (sanitizeStep (Json.obj pkvs)
          (sanitizeStep (Json.obj pkvs) (Json.obj pkvs, [], []) "allow") "ask") "deny" := rfl
  have hobj0 : ∃ kvs, ((Json.obj pkvs, ([] : List MigratedEntry),
      ([] : List RemovedEntry)).1 : Json) = Json.obj kvs := ⟨pkvs, rfl⟩
  have hobj1 := @sanitizeStep_obj (Json.obj pkvs) _ "allow" hobj0
  have hobj2 := @sanitizeStep_obj (Json.obj pkvs) _ "ask" hobj1
  rw [hfold]
  have notarr : ∀ (j : Json), (∀ v, j.getKey cat = some v → ∀ rs, v ≠ Json.arr rs) →
      ∀ rs, j.getKey cat ≠ some (Json.arr rs) := by
    intro j hv rs hr
    exact hv _ hr rs rfl
  rcases hcat with rfl | rfl | rfl
  · -- allow: later steps leave the key alone
    rw [sanitizeStep_getKey_ne _ _ (by decide), sanitizeStep_getKey_ne _ _ (by decide)]
    cases hr : (Json.obj pkvs).getKey "allow" with
    | none =>
        refine Or.inr ⟨(fun rs h => by simp at h), ?_⟩
        rw [sanitizeStep_notarr (fun rs h => by rw [hr] at h; cases h), hr]
    | some v =>
        cases v with
        | arr rs => exact Or.inl ⟨rs, rfl, sanitizeStep_getKey_arr hobj0 hr⟩
        | null =>
            refine Or.inr ⟨(fun rs h => by simp at h), ?_⟩
            rw [sanitizeStep_notarr (fun rs h => by rw [hr] at h; cases h), hr]
        | bool b =>
            refine Or.inr ⟨(fun rs h => by simp at h), ?_⟩
            rw [sanitizeStep_notarr (fun rs h => by rw [hr] at h; cases h), hr]
        | num n =>
            refine Or.inr ⟨(fun rs h => by simp at h), ?_⟩
            rw [sanitizeStep_notarr (fun rs h => by rw [hr] at h; cases h), hr]
        | str s =>
            refine Or.inr ⟨(fun rs h => by simp at h), ?_⟩
            rw [sanitizeStep_notarr (fun rs h => by rw [hr] at h; cases h), hr]
        | obj kvs =>
            refine Or.inr ⟨(fun rs h => by simp at h), ?_⟩
            rw [sanitizeStep_notarr (fun rs h => by rw [hr] at h; cases h), hr]
  · -- ask: the deny step leaves it alone; the ask step reads the original
    rw [sanitizeStep_getKey_ne _ _ (by decide)]
    cases hr : (Json.obj pkvs).getKey "ask" with
    | none =>
        refine Or.inr ⟨(fun rs h => by simp at h), ?_⟩
        rw [sanitizeStep_notarr (fun rs h => by rw [hr] at h; cases h),
          sanitizeStep_getKey_ne _ _ (by decide), hr]
    | some v =>
        cases v with
        | arr rs => exact Or.inl ⟨rs, rfl, sanitizeStep_getKey_arr hobj1 hr⟩
        | null =>
            refine Or.inr ⟨(fun rs h => by simp at h), ?_⟩
            rw [sanitizeStep_notarr (fun rs h => by rw [hr] at h; cases h),
              sanitizeStep_getKey_ne _ _ (by decide), hr]
        | bool b =>
            refine Or.inr ⟨(fun rs h => by simp at h), ?_⟩
            rw [sanitizeStep_notarr (fun rs h => by rw [hr] at h; cases h),
              sanitizeStep_getKey_ne _ _ (by decide), hr]
        | num n =>
            refine Or.inr ⟨(fun rs h => by simp at h), ?_⟩
            rw [sanitizeStep_notarr (fun rs h => by rw [hr] at h; cases h),
              sanitizeStep_getKey_ne _ _ (by decide), hr]
        | str s =>
            refine Or.inr ⟨(fun rs h => by simp at h), ?_⟩
            rw [sanitizeStep_notarr (fun rs h => by rw [hr] at h; cases h),
              sanitizeStep_getKey_ne _ _ (by decide), hr]
        | obj kvs =>
            refine Or.inr ⟨(fun rs h => by simp at h), ?_⟩
            rw [sanitizeStep_notarr (fun rs h => by rw [hr] at h; cases h),
              sanitizeStep_getKey_ne _ _ (by decide), hr]
  · -- deny: the deny step reads the original; earlier steps leave it alone
    cases hr : (Json.obj pkvs).getKey "deny" with
    | none =>
        refine Or.inr ⟨(fun rs h => by simp at h), ?_⟩
        rw [sanitizeStep_notarr (fun rs h => by rw [hr] at h; cases h),
          sanitizeStep_getKey_ne _ _ (by decide), sanitizeStep_getKey_ne _ _ (by decide), hr]
    | some v =>
        cases v with
        | arr rs => exact Or.inl ⟨rs, rfl, sanitizeStep_getKey_arr hobj2 hr⟩
        | null =>
            refine Or.inr ⟨(fun rs h => by simp at h), ?_⟩
            rw [sanitizeStep_notarr (fun rs h => by rw [hr] at h; cases h),
              sanitizeStep_getKey_ne _ _ (by decide), sanitizeStep_getKey_ne _ _ (by decide), hr]
        | bool b =>
            refine Or.inr ⟨(fun rs h => by simp at h), ?_⟩
            rw [sanitizeStep_notarr (fun rs h => by rw [hr] at h; cases h),
              sanitizeStep_getKey_ne _ _ (by decide), sanitizeStep_getKey_ne _ _ (by decide), hr]
        | num n =>
            refine Or.inr ⟨(fun rs h => by simp at h), ?_⟩
            rw [sanitizeStep_notarr (fun rs h => by rw [hr] at h; cases h),
              sanitizeStep_getKey_ne _ _ (by decide), sanitizeStep_getKey_ne _ _ (by decide), hr]
        | str s =>
            refine Or.inr ⟨(fun rs h => by simp at h), ?_⟩
            rw [sanitizeStep_notarr (fun rs h => by rw [hr] at h; cases h),
              sanitizeStep_getKey_ne _ _ (by decide), sanitizeStep_getKey_ne _ _ (by decide), hr]
        | obj kvs =>
            refine Or.inr ⟨(fun rs h => by simp at h), ?_⟩
            rw [sanitizeStep_notarr (fun rs h => by rw [hr] at h; cases h),
              sanitizeStep_getKey_ne _ _ (by decide), sanitizeStep_getKey_ne _ _ (by decide), hr]

theorem sanitize_output_valid (j : Json) (cat : String)
    (hcat : cat = "allow" ∨ cat = "ask" ∨ cat = "deny")
    (perms : Json)
    (hp : ((sanitize_permission_rules j).sanitized_settings).getKey "permissions" = some perms)
    (xs : List Json) (hx : perms.getKey cat = some (Json.arr xs)) :
    ∀ v ∈ xs, ∃ s, v = Json.str s ∧ (validate_permission_pattern s).1 = true := by
  intro v hv
  unfold sanitize_permission_rules at hp
  cases hper : j.getKey "permissions" with
  | none =>
      simp only [hper] at hp
      cases hp
  | some pj =>
      cases pj with
      | obj pkvs =>
          simp only [hper] at hp
          have hjobj : ∃ kvs, j = Json.obj kvs := by
            cases j with
            | obj kvs => exact ⟨kvs, rfl⟩
            | null => simp [Json.getKey] at hper
            | bool b => simp [Json.getKey] at hper
            | num n => simp [Json.getKey] at hper
            | str s => simp [Json.getKey] at hper
            | arr ys => simp [Json.getKey] at hper
          obtain ⟨kvs, rfl⟩ := hjobj
          rw [getKey_setKey_self] at hp
          obtain rfl := Option.some.inj hp
          rcases sanitize_fold_getKey pkvs cat hcat with ⟨rs, hr, hres⟩ | ⟨hne, hres⟩
          · rw [hres] at hx
            have hxs := Option.some.inj hx
            have hxs2 : (sanitize_rules_list cat rs).1.map Json.str = xs := by
              injection hxs
            rw [← hxs2] at hv
            obtain ⟨s, hs, rfl⟩ := List.mem_map.mp hv
            exact ⟨s, rfl, sanitize_rules_list_valid cat rs s hs⟩
          · rw [hres] at hx
            exact absurd hx (hne xs)
      | null =>
          simp only [hper] at hp
          obtain rfl := Option.some.inj hp
          simp [Json.getKey] at hx
      | bool b =>
          simp only [hper] at hp
          obtain rfl := Option.some.inj hp
          simp [Json.getKey] at hx
      | num n =>
          simp only [hper] at hp
          obtain rfl := Option.some.inj hp
          simp [Json.getKey] at hx
      | str s =>
          simp only [hper] at hp
          obtain rfl := Option.some.inj hp
          simp [Json.getKey] at hx
      | arr ys =>
          simp only [hper] at hp
          obtain rfl := Option.some.inj hp
          simp [Json.getKey] at hx

/-- C3 amended: on the scoped-settings write path (`ConfigService.update_settings`),
sanitization runs unconditionally on the full post-merge document before it
is saved, so every permission pattern in a document written by that
operation classifies successfully.  (The rule add/remove and
permission-settings operations do not sanitize — see the counterexample
theorem for `add_permission`.) -/
theorem config_update_settings_sanitizes
    (existing incoming : Json) (cat : String)
    (hcat : cat = "allow" ∨ cat = "ask" ∨ cat = "deny")
    (perms : Json)
    (hp : ((config_update_settings existing incoming).1).getKey "permissions" = some perms)
    (xs : List Json) (hx : perms.getKey cat = some (Json.arr xs)) :
    ∀ v ∈ xs, ∃ s, v = Json.str s ∧ (validate_permission_pattern s).1 = true :=
  sanitize_output_valid (deep_merge existing incoming) cat hcat perms hp xs hx

/-- C3 amended witness: writing `allow=["Bash(ls:*)"]` over an empty stored
document persists `allow=["Bash(ls *)"]`, whose only pattern is valid. -/
theorem config_update_settings_sanitizes_witness :
    ∃ s, Json.str "Bash(ls *)" = Json.str s ∧ (validate_permission_pattern s).1 = true :=
  config_update_settings_sanitizes (Json.obj []) (permDoc ["Bash(ls:*)"] [] []) "allow"
    (Or.inl rfl)
    (Json.obj [("allow", Json.arr [Json.str "Bash(ls *)"]),
               ("ask", Json.arr []), ("deny", Json.arr [])])
    rfl [Json.str "Bash(ls *)"] rfl (Json.str "Bash(ls *)") (List.mem_singleton_self _)

theorem sanitizeStep_id (p0 : Json) (acc : Json × List MigratedEntry × List RemovedEntry)
    (c : String) (hacc : acc.1 = p0)
    (hshape : (∃ cl : List String, p0.getKey c = some (Json.arr (cl.map Json.str)) ∧
        ∀ s ∈ cl, (validate_permission_pattern s).1 = true) ∨
      (∀ rs, p0.getKey c ≠ some (Json.arr rs))) :
    sanitizeStep p0 acc c = acc := by
  rcases hshape with ⟨cl, hr, hval⟩ | hne
  · unfold sanitizeStep
    simp only [hr]
    rw [sanitize_rules_list_of_valid c cl hval]
    rw [setKey_getKey_eq (by rw [hacc]; exact hr), List.append_nil, List.append_nil]
  · exact sanitizeStep_notarr hne

/-- C10: sanitization is idempotent — re-sanitizing the sanitized output of
any settings document returns it unchanged, with empty `migrated` and
`removed` reports. -/
theorem sanitize_idempotent (kvs : List (String × Json)) :
    sanitize_permission_rules ((sanitize_permission_rules (Json.obj kvs)).sanitized_settings)
      = ⟨[], [], (sanitize_permission_rules (Json.obj kvs)).sanitized_settings⟩ := by
  cases hper : (Json.obj kvs).getKey "permissions" with
  | none =>
      have h1 : sanitize_permission_rules (Json.obj kvs) = ⟨[], [], Json.obj kvs⟩ := by
        unfold sanitize_permission_rules
        simp only [hper]
      rw [h1]
      exact h1
  | some pj =>
      cases pj with
      | obj pkvs =>
          obtain ⟨F, hF⟩ : ∃ F, (List.foldl (sanitizeStep (Json.obj pkvs))
              ((Json.obj pkvs, [], []) : Json × List MigratedEntry × List RemovedEntry)
              ["allow", "ask", "deny"]) = F := ⟨_, rfl⟩
          have h1 : sanitize_permission_rules (Json.obj kvs)
              = ⟨F.2.1, F.2.2, (Json.obj kvs).setKey "permissions" F.1⟩ := by
            unfold sanitize_permission_rules
            simp only [hper, hF]
          have hshape : ∀ c, c = "allow" ∨ c = "ask" ∨ c = "deny" →
              (∃ cl : List String, (F.1).getKey c = some (Json.arr (cl.map Json.str)) ∧
                  ∀ s ∈ cl, (validate_permission_pattern s).1 = true) ∨
              (∀ rs, (F.1).getKey c ≠ some (Json.arr rs)) := by
            intro c hc
            rcases sanitize_fold_getKey pkvs c hc with ⟨rs, hr, hres⟩ | ⟨hne, hres⟩
            · rw [hF] at hres
              exact Or.inl ⟨(sanitize_rules_list c rs).1, hres, sanitize_rules_list_valid c rs⟩
            · rw [hF] at hres
              refine Or.inr fun rs h => hne rs ?_
              rw [← hres]
              exact h
          have hobjF : ∃ q, F.1 = Json.obj q := by
            rw [← hF]
            have e : (List.foldl (sanitizeStep (Json.obj pkvs))
                ((Json.obj pkvs, [], []) : Json × List MigratedEntry × List RemovedEntry)
                ["allow", "ask", "deny"])
                = sanitizeStep (Json.obj pkvs) (sanitizeStep (Json.obj pkvs)
                    (sanitizeStep (Json.obj pkvs) (Json.obj pkvs, [], []) "allow") "ask") "deny" := rfl
            rw [e]
            exact sanitizeStep_obj (sanitizeStep_obj (sanitizeStep_obj ⟨pkvs, rfl⟩))
          obtain ⟨q, hq⟩ := hobjF
          rw [hq] at h1
          have hget2 : ((Json.obj kvs).setKey "permissions" (Json.obj q)).getKey "permissions"
              = some (Json.obj q) := getKey_setKey_self kvs _ _
          rw [h1]
          show sanitize_permission_rules ((Json.obj kvs).setKey "permissions" (Json.obj q))
              = ⟨[], [], (Json.obj kvs).setKey "permissions" (Json.obj q)⟩
          have hsecond : List.foldl (sanitizeStep (Json.obj q))
              ((Json.obj q, [], []) : Json × List MigratedEntry × List RemovedEntry)
              ["allow", "ask", "deny"] = (Json.obj q, [], []) := by
            have e2 : List.foldl (sanitizeStep (Json.obj q))
                ((Json.obj q, [], []) : Json × List MigratedEntry × List RemovedEntry)
                ["allow", "ask", "deny"]
                = sanitizeStep (Json.obj q) (sanitizeStep (Json.obj q)
                    (sanitizeStep (Json.obj q) (Json.obj q, [], []) "allow") "ask") "deny" := rfl
            have hid1 : sanitizeStep (Json.obj q) (Json.obj q, [], []) "allow"
                = ((Json.obj q, [], []) : Json × List MigratedEntry × List RemovedEntry) :=
              sanitizeStep_id _ _ _ rfl (by have := hshape "allow" (Or.inl rfl); rwa [hq] at this)
            have hid2 : sanitizeStep (Json.obj q) (Json.obj q, [], []) "ask"
                = ((Json.obj q, [], []) : Json × List MigratedEntry × List RemovedEntry) :=
              sanitizeStep_id _ _ _ rfl
                (by have := hshape "ask" (Or.inr (Or.inl rfl)); rwa [hq] at this)
            have hid3 : sanitizeStep (Json.obj q) (Json.obj q, [], []) "deny"
                = ((Json.obj q, [], []) : Json × List MigratedEntry × List RemovedEntry) :=
              sanitizeStep_id _ _ _ rfl
                (by have := hshape "deny" (Or.inr (Or.inr rfl)); rwa [hq] at this)
            rw [e2, hid1, hid2, hid3]
          unfold sanitize_permission_rules
          simp only [hget2, hsecond]
          rw [setKey_getKey_eq hget2]
      | null =>
          have h1 : sanitize_permission_rules (Json.obj kvs) = ⟨[], [], Json.obj kvs⟩ := by
            unfold sanitize_permission_rules
            simp only [hper]
          rw [h1]
          exact h1
      | bool b =>
          have h1 : sanitize_permission_rules (Json.obj kvs) = ⟨[], [], Json.obj kvs⟩ := by
            unfold sanitize_permission_rules
            simp only [hper]
          rw [h1]
          exact h1
      | num n =>
          have h1 : sanitize_permission_rules (Json.obj kvs) = ⟨[], [], Json.obj kvs⟩ := by
            unfold sanitize_permission_rules
            simp only [hper]
          rw [h1]
          exact h1
      | str s =>
          have h1 : sanitize_permission_rules (Json.obj kvs) = ⟨[], [], Json.obj kvs⟩ := by
            unfold sanitize_permission_rules
            simp only [hper]
          rw [h1]
          exact h1
      | arr ys =>
          have h1 : sanitize_permission_rules (Json.obj kvs) = ⟨[], [], Json.obj kvs⟩ := by
            unfold sanitize_permission_rules
            simp only [hper]
          rw [h1]
          exact h1

/-! # Lemmas about rule identities and rule lists -/

theorem string_data_inj {s t : String} (h : s.data = t.data) : s = t := by
  cases s; cases t; exact congrArg String.mk h

theorem ne_of_common_prefix {l : List Char} {c d : Char} {x y : List Char} (h : c ≠ d) :
    l ++ c :: x ≠ l ++ d :: y := by
  intro he
  have h2 := List.append_cancel_left he
  injection h2 with h1 _
  exact h h1

theorem ruleId_allow_ne_ask (p q : String) :
    ruleIdName "user" "allow" p ≠ ruleIdName "user" "ask" q := by
  intro h
  have hd : (['u', 's', 'e', 'r', '-', 'a'] ++ 'l' :: ('l' :: 'o' :: 'w' :: '-' :: p.data))
      = ['u', 's', 'e', 'r', '-', 'a'] ++ 's' :: ('k' :: '-' :: q.data) := congrArg String.data h
  exact ne_of_common_prefix (by decide) hd

theorem ruleId_allow_ne_deny (p q : String) :
    ruleIdName "user" "allow" p ≠ ruleIdName "user" "deny" q := by
  intro h
  have hd : (['u', 's', 'e', 'r', '-'] ++ 'a' :: ('l' :: 'l' :: 'o' :: 'w' :: '-' :: p.data))
      = ['u', 's', 'e', 'r', '-'] ++ 'd' :: ('e' :: 'n' :: 'y' :: '-' :: q.data) :=
    congrArg String.data h
  exact ne_of_common_prefix (by decide) hd

theorem ruleId_ask_ne_deny (p q : String) :
    ruleIdName "user" "ask" p ≠ ruleIdName "user" "deny" q := by
  intro h
  have hd : (['u', 's', 'e', 'r', '-'] ++ 'a' :: ('s' :: 'k' :: '-' :: p.data))
      = ['u', 's', 'e', 'r', '-'] ++ 'd' :: ('e' :: 'n' :: 'y' :: '-' :: q.data) :=
    congrArg String.data h
  exact ne_of_common_prefix (by decide) hd

theorem ruleIdName_user_inj (k : String) {p q : String}
    (h : ruleIdName "user" k p = ruleIdName "user" k q) : p = q := by
  have e : ∀ x : String,
      "user".data ++ '-' :: k.data ++ '-' :: x.data
        = ("user".data ++ '-' :: k.data ++ ['-']) ++ x.data := by
    intro x
    simp
  have hd : "user".data ++ '-' :: k.data ++ '-' :: p.data
      = "user".data ++ '-' :: k.data ++ '-' :: q.data := congrArg String.data h
  rw [e p, e q] at hd
  exact string_data_inj (List.append_cancel_left hd)

theorem strEntries_arr_map (l : List String) :
    strEntries (some (Json.arr (l.map Json.str))) = l := by
  unfold strEntries
  induction l with
  | nil => rfl
  | cons s t ih =>
      simp only [List.map_cons, List.filterMap_cons]
      rw [show jsonStr? (Json.str s) = some s from rfl]
      simp only [List.map] at ih
      rw [ih]

theorem list_permission_rules_permDoc (al as dn : List String) :
    list_permission_rules (permDoc al as dn)
      = al.map (fun p => ⟨ruleIdName "user" "allow" p, "allow", p, "user"⟩)
        ++ as.map (fun p => ⟨ruleIdName "user" "ask" p, "ask", p, "user"⟩)
        ++ dn.map (fun p => ⟨ruleIdName "user" "deny" p, "deny", p, "user"⟩) := by
  have e : list_permission_rules (permDoc al as dn)
      = (strEntries (some (Json.arr (al.map Json.str)))).map
          (fun p => ⟨ruleIdName "user" "allow" p, "allow", p, "user"⟩)
        ++ (strEntries (some (Json.arr (as.map Json.str)))).map
          (fun p => ⟨ruleIdName "user" "ask" p, "ask", p, "user"⟩)
        ++ (strEntries (some (Json.arr (dn.map Json.str)))).map
          (fun p => ⟨ruleIdName "user" "deny" p, "deny", p, "user"⟩) := rfl
  rw [e, strEntries_arr_map, strEntries_arr_map, strEntries_arr_map]

theorem catOf_permDoc_allow (al as dn : List String) : catOf (permDoc al as dn) "allow" = al := by
  have e : catOf (permDoc al as dn) "allow"
      = strEntries (some (Json.arr (al.map Json.str))) := rfl
  rw [e, strEntries_arr_map]

theorem catOf_permDoc_ask (al as dn : List String) : catOf (permDoc al as dn) "ask" = as := by
  have e : catOf (permDoc al as dn) "ask"
      = strEntries (some (Json.arr (as.map Json.str))) := rfl
  rw [e, strEntries_arr_map]

theorem catOf_permDoc_deny (al as dn : List String) : catOf (permDoc al as dn) "deny" = dn := by
  have e : catOf (permDoc al as dn) "deny"
      = strEntries (some (Json.arr (dn.map Json.str))) := rfl
  rw [e, strEntries_arr_map]

theorem jsonListContains_map_str (l : List String) (x : String) :
    jsonListContains (l.map Json.str) (Json.str x) = true ↔ x ∈ l := by
  unfold jsonListContains
  rw [List.any_eq_true]
  constructor
  · rintro ⟨j, hj, hbeq⟩
    obtain ⟨s, hs, rfl⟩ := List.mem_map.mp hj
    have hb : (s == x) = true := hbeq
    rw [eq_of_beq hb] at hs
    exact hs
  · intro hx
    refine ⟨Json.str x, List.mem_map_of_mem _ hx, ?_⟩
    show (x == x) = true
    exact beq_self_eq_true x

theorem removeFirstJson_map_str (l : List String) (x : String) :
    removeFirstJson (l.map Json.str) (Json.str x) = (eraseFirstStr l x).map Json.str := by
  induction l with
  | nil => rfl
  | cons a t ih =>
      by_cases h : a = x
      · subst h
        have hb : Json.beq (Json.str a) (Json.str a) = true := beq_self_eq_true a
        show (if Json.beq (Json.str a) (Json.str a) = true then t.map Json.str
              else Json.str a :: removeFirstJson (t.map Json.str) (Json.str a))
            = ((if a = a then t else a :: eraseFirstStr t a).map Json.str)
        rw [if_pos hb, if_pos rfl]
      · have hb : Json.beq (Json.str a) (Json.str x) = false := by
          have hb2 : (a == x) = false := beq_eq_false_iff_ne.mpr h
          exact hb2
        show (if Json.beq (Json.str a) (Json.str x) = true then t.map Json.str
              else Json.str a :: removeFirstJson (t.map Json.str) (Json.str x))
            = ((if a = x then t else a :: eraseFirstStr t x).map Json.str)
        rw [if_neg (by simp [hb]), if_neg h, List.map_cons, ih]

theorem eraseFirstStr_length {l : List String} {x : String} (h : x ∈ l) :
    (eraseFirstStr l x).length + 1 = l.length := by
  induction l with
  | nil => cases h
  | cons a t ih =>
      by_cases ha : a = x
      · subst ha
        simp [eraseFirstStr]
      · rcases List.mem_cons.mp h with rfl | hmem
        · exact absurd rfl ha
        · simp only [eraseFirstStr, if_neg ha, List.length_cons]
          rw [← ih hmem]

theorem find?_rules_map_none (l : List String) (kr k pat : String)
    (hne : ∀ p, ruleIdName "user" kr p ≠ ruleIdName "user" k pat) :
    (l.map (fun p => (⟨ruleIdName "user" kr p, kr, p, "user"⟩ : PermissionRule))).find?
      (fun r => r.id == ruleIdName "user" k pat && r.scope == "user") = none := by
  rw [List.find?_eq_none]
  intro r hr
  obtain ⟨p, hp, rfl⟩ := List.mem_map.mp hr
  simp only [Bool.and_eq_true, beq_iff_eq]
  rintro ⟨h1, -⟩
  exact hne p h1

theorem find?_rules_map_mem (l : List String) (k pat : String) (hmem : pat ∈ l) :
    (l.map (fun p => (⟨ruleIdName "user" k p, k, p, "user"⟩ : PermissionRule))).find?
      (fun r => r.id == ruleIdName "user" k pat && r.scope == "user")
      = some ⟨ruleIdName "user" k pat, k, pat, "user"⟩ := by
  induction l with
  | nil => cases hmem
  | cons a t ih =>
      simp only [List.map_cons]
      by_cases ha : a = pat
      · subst ha
        rw [List.find?_cons_of_pos]
        show (ruleIdName "user" k a == ruleIdName "user" k a && "user" == "user") = true
        simp
      · rcases List.mem_cons.mp hmem with rfl | hm
        · exact absurd rfl ha
        · rw [List.find?_cons_of_neg]
          · exact ih hm
          · show ¬ (ruleIdName "user" k a == ruleIdName "user" k pat && "user" == "user") = true
            simp only [Bool.and_eq_true, beq_iff_eq]
            rintro ⟨h1, -⟩
            exact ha (ruleIdName_user_inj k h1)

theorem find_rule_permDoc (al as dn : List String) (k pat : String)
    (hk : k = "allow" ∨ k = "ask" ∨ k = "deny")
    (hmem : pat ∈ kindSel k al as dn) :
    (list_permission_rules (permDoc al as dn)).find?
        (fun r => r.id == ruleIdName "user" k pat && r.scope == "user")
      = some ⟨ruleIdName "user" k pat, k, pat, "user"⟩ := by
  rw [list_permission_rules_permDoc]
  rcases hk with rfl | rfl | rfl
  · have hm : pat ∈ al := hmem
    rw [List.find?_append, List.find?_append, find?_rules_map_mem al "allow" pat hm]
    rfl
  · have hm : pat ∈ as := hmem
    rw [List.find?_append, List.find?_append,
      find?_rules_map_none al "allow" "ask" pat (fun p => ruleId_allow_ne_ask p pat),
      find?_rules_map_mem as "ask" pat hm]
    rfl
  · have hm : pat ∈ dn := hmem
    rw [List.find?_append, List.find?_append,
      find?_rules_map_none al "allow" "deny" pat (fun p => ruleId_allow_ne_deny p pat),
      find?_rules_map_none as "ask" "deny" pat (fun p => ruleId_ask_ne_deny p pat),
      find?_rules_map_mem dn "deny" pat hm]
    rfl

theorem remove_permission_permDoc_allow (al as dn : List String) (pat : String) (hmem : pat ∈ al) :
    remove_permission (permDoc al as dn) (ruleIdName "user" "allow" pat)
      = (permDoc (eraseFirstStr al pat) as dn, Except.ok ()) := by
  have hfind := find_rule_permDoc al as dn "allow" pat (Or.inl rfl) hmem
  unfold remove_permission
  rw [hfind]
  change (Json.obj [("permissions", Json.obj
      [("allow", Json.arr (if jsonListContains (al.map Json.str) (Json.str pat) = true
           then removeFirstJson (al.map Json.str) (Json.str pat) else al.map Json.str)),
       ("ask", Json.arr (as.map Json.str)),
       ("deny", Json.arr (dn.map Json.str))])], (Except.ok () : Except String Unit))
    = (permDoc (eraseFirstStr al pat) as dn, Except.ok ())
  rw [if_pos ((jsonListContains_map_str al pat).mpr hmem), removeFirstJson_map_str]
  rfl

theorem remove_permission_permDoc_ask (al as dn : List String) (pat : String) (hmem : pat ∈ as) :
    remove_permission (permDoc al as dn) (ruleIdName "user" "ask" pat)
      = (permDoc al (eraseFirstStr as pat) dn, Except.ok ()) := by
  have hfind := find_rule_permDoc al as dn "ask" pat (Or.inr (Or.inl rfl)) hmem
  unfold remove_permission
  rw [hfind]
  change (Json.obj [("permissions", Json.obj
      [("allow", Json.arr (al.map Json.str)),
       ("ask", Json.arr (if jsonListContains (as.map Json.str) (Json.str pat) = true
           then removeFirstJson (as.map Json.str) (Json.str pat) else as.map Json.str)),
       ("deny", Json.arr (dn.map Json.str))])], (Except.ok () : Except String Unit))
    = (permDoc al (eraseFirstStr as pat) dn, Except.ok ())
  rw [if_pos ((jsonListContains_map_str as pat).mpr hmem), removeFirstJson_map_str]
  rfl

theorem remove_permission_permDoc_deny (al as dn : List String) (pat : String) (hmem : pat ∈ dn) :
    remove_permission (permDoc al as dn) (ruleIdName "user" "deny" pat)
      = (permDoc al as (eraseFirstStr dn pat), Except.ok ()) := by
  have hfind := find_rule_permDoc al as dn "deny" pat (Or.inr (Or.inr rfl)) hmem
  unfold remove_permission
  rw [hfind]
  change (Json.obj [("permissions", Json.obj
      [("allow", Json.arr (al.map Json.str)),
       ("ask", Json.arr (as.map Json.str)),
       ("deny", Json.arr (if jsonListContains (dn.map Json.str) (Json.str pat) = true
           then removeFirstJson (dn.map Json.str) (Json.str pat) else dn.map Json.str))])],
      (Except.ok () : Except String Unit))
    = (permDoc al as (eraseFirstStr dn pat), Except.ok ())
  rw [if_pos ((jsonListContains_map_str dn pat).mpr hmem), removeFirstJson_map_str]
  rfl

theorem update_permission_step (doc : Json) (rid newPat : String) (r : PermissionRule)
    (hfind : (list_permission_rules doc).find? (fun x => x.id == rid && x.scope == "user")
      = some r) :
    update_permission doc rid ⟨none, some newPat⟩
      = (match (remove_permission doc rid).2 with
         | Except.error e => ((remove_permission doc rid).1, Except.error e)
         | Except.ok _ => add_permission (remove_permission doc rid).1
             ⟨r.type, pyOrStr (some newPat) r.pattern, "user"⟩) := by
  unfold update_permission
  rw [if_neg (fun h => nomatch h), hfind]
  rfl

/-- C9: `update_permission` is not atomic.  When the patched rule fails the
re-add step (invalid new pattern, or duplicate of a surviving entry), the
call returns an error, yet the stored document has already lost the original
rule: the result document equals the original with the old pattern's first
occurrence erased from its category, and differs from the original. -/
theorem update_permission_not_atomic (al as dn : List String) (k pat newPat : String)
    (hk : k = "allow" ∨ k = "ask" ∨ k = "deny")
    (hmem : pat ∈ kindSel k al as dn)
    (hne : newPat.isEmpty = false)
    (hbad : (validate_permission_pattern newPat).1 = false
      ∨ ((validate_permission_pattern newPat).1 = true
          ∧ newPat ∈ eraseFirstStr (kindSel k al as dn) pat)) :
    (∃ e, (update_permission (permDoc al as dn) (ruleIdName "user" k pat)
        ⟨none, some newPat⟩).2 = Except.error e)
    ∧ (update_permission (permDoc al as dn) (ruleIdName "user" k pat)
        ⟨none, some newPat⟩).1
        = permDoc (if k = "allow" then eraseFirstStr al pat else al)
                  (if k = "ask" then eraseFirstStr as pat else as)
                  (if k = "deny" then eraseFirstStr dn pat else dn)
    ∧ (update_permission (permDoc al as dn) (ruleIdName "user" k pat)
        ⟨none, some newPat⟩).1 ≠ permDoc al as dn := by
  have hps : pyOrStr (some newPat) pat = newPat := by
    show (if newPat.isEmpty = true then pat else newPat) = newPat
    rw [if_neg (by simp [hne])]
  rcases hk with rfl | rfl | rfl
  · -- k = "allow"
    have hmem' : pat ∈ al := hmem
    have hfind := find_rule_permDoc al as dn "allow" pat (Or.inl rfl) hmem
    have er := remove_permission_permDoc_allow al as dn pat hmem'
    have hu : update_permission (permDoc al as dn) (ruleIdName "user" "allow" pat)
        ⟨none, some newPat⟩
        = add_permission (permDoc (eraseFirstStr al pat) as dn)
            ⟨"allow", pyOrStr (some newPat) pat, "user"⟩ := by
      rw [update_permission_step _ _ _ _ hfind, er]
    rw [hps] at hu
    have e3 : add_permission (permDoc (eraseFirstStr al pat) as dn) ⟨"allow", newPat, "user"⟩
        = (if ¬(validate_permission_pattern newPat).1 = true
            then (permDoc (eraseFirstStr al pat) as dn,
              Except.error ("Invalid pattern format: " ++ newPat))
            else if jsonListContains ((eraseFirstStr al pat).map Json.str) (Json.str newPat) = true
              then (permDoc (eraseFirstStr al pat) as dn,
                Except.error ("Pattern already exists in allow list: " ++ newPat))
              else (Json.obj [("permissions", Json.obj
                  [("allow", Json.arr ((eraseFirstStr al pat).map Json.str ++ [Json.str newPat])),
                   ("ask", Json.arr (as.map Json.str)),
                   ("deny", Json.arr (dn.map Json.str))])],
                Except.ok ⟨ruleIdName "user" "allow" newPat, "allow", newPat, "user"⟩)) := rfl
    have hu2 : ∃ m, update_permission (permDoc al as dn) (ruleIdName "user" "allow" pat)
        ⟨none, some newPat⟩ = (permDoc (eraseFirstStr al pat) as dn, Except.error m) := by
      rcases hbad with hbadv | ⟨hval, hdup⟩
      · refine ⟨"Invalid pattern format: " ++ newPat, ?_⟩
        rw [hu, e3, if_pos (by simp [hbadv])]
      · have hdup' : newPat ∈ eraseFirstStr al pat := hdup
        refine ⟨"Pattern already exists in allow list: " ++ newPat, ?_⟩
        rw [hu, e3, if_neg (by simp [hval]),
            if_pos ((jsonListContains_map_str (eraseFirstStr al pat) newPat).mpr hdup')]
    obtain ⟨m, hu2⟩ := hu2
    refine ⟨⟨m, by rw [hu2]⟩, by rw [hu2]; rfl, ?_⟩
    rw [hu2]
    intro heq
    have hc := congrArg (fun d => catOf d "allow") heq
    simp only [catOf_permDoc_allow] at hc
    have hl := eraseFirstStr_length hmem'
    rw [hc] at hl
    omega
  · -- k = "ask"
    have hmem' : pat ∈ as := hmem
    have hfind := find_rule_permDoc al as dn "ask" pat (Or.inr (Or.inl rfl)) hmem
    have er := remove_permission_permDoc_ask al as dn pat hmem'
    have hu : update_permission (permDoc al as dn) (ruleIdName "user" "ask" pat)
        ⟨none, some newPat⟩
        = add_permission (permDoc al (eraseFirstStr as pat) dn)
            ⟨"ask", pyOrStr (some newPat) pat, "user"⟩ := by
      rw [update_permission_step _ _ _ _ hfind, er]
    rw [hps] at hu
    have e3 : add_permission (permDoc al (eraseFirstStr as pat) dn) ⟨"ask", newPat, "user"⟩
        = (if ¬(validate_permission_pattern newPat).1 = true
            then (permDoc al (eraseFirstStr as pat) dn,
              Except.error ("Invalid pattern format: " ++ newPat))
            else if jsonListContains ((eraseFirstStr as pat).map Json.str) (Json.str newPat) = true
              then (permDoc al (eraseFirstStr as pat) dn,
                Except.error ("Pattern already exists in ask list: " ++ newPat))
              else (Json.obj [("permissions", Json.obj
                  [("allow", Json.arr (al.map Json.str)),
                   ("ask", Json.arr ((eraseFirstStr as pat).map Json.str ++ [Json.str newPat])),
                   ("deny", Json.arr (dn.map Json.str))])],
                Except.ok ⟨ruleIdName "user" "ask" newPat, "ask", newPat, "user"⟩)) := rfl
    have hu2 : ∃ m, update_permission (permDoc al as dn) (ruleIdName "user" "ask" pat)
        ⟨none, some newPat⟩ = (permDoc al (eraseFirstStr as pat) dn, Except.error m) := by
      rcases hbad with hbadv | ⟨hval, hdup⟩
      · refine ⟨"Invalid pattern format: " ++ newPat, ?_⟩
        rw [hu, e3, if_pos (by simp [hbadv])]
      · have hdup' : newPat ∈ eraseFirstStr as pat := hdup
        refine ⟨"Pattern already exists in ask list: " ++ newPat, ?_⟩
        rw [hu, e3, if_neg (by simp [hval]),
            if_pos ((jsonListContains_map_str (eraseFirstStr as pat) newPat).mpr hdup')]
    obtain ⟨m, hu2⟩ := hu2
    refine ⟨⟨m, by rw [hu2]⟩, by rw [hu2]; rfl, ?_⟩
    rw [hu2]
    intro heq
    have hc := congrArg (fun d => catOf d "ask") heq
    simp only [catOf_permDoc_ask] at hc
    have hl := eraseFirstStr_length hmem'
    rw [hc] at hl
    omega
  · -- k = "deny"
    have hmem' : pat ∈ dn := hmem
    have hfind := find_rule_permDoc al as dn "deny" pat (Or.inr (Or.inr rfl)) hmem
    have er := remove_permission_permDoc_deny al as dn pat hmem'
    have hu : update_permission (permDoc al as dn) (ruleIdName "user" "deny" pat)
        ⟨none, some newPat⟩
        = add_permission (permDoc al as (eraseFirstStr dn pat))
            ⟨"deny", pyOrStr (some newPat) pat, "user"⟩ := by
      rw [update_permission_step _ _ _ _ hfind, er]
    rw [hps] at hu
    have e3 : add_permission (permDoc al as (eraseFirstStr dn pat)) ⟨"deny", newPat, "user"⟩
        = (if ¬(validate_permission_pattern newPat).1 = true
            then (permDoc al as (eraseFirstStr dn pat),
              Except.error ("Invalid pattern format: " ++ newPat))
            else if jsonListContains ((eraseFirstStr dn pat).map Json.str) (Json.str newPat) = true
              then (permDoc al as (eraseFirstStr dn pat),
                Except.error ("Pattern already exists in deny list: " ++ newPat))
              else (Json.obj [("permissions", Json.obj
                  [("allow", Json.arr (al.map Json.str)),
                   ("ask", Json.arr (as.map Json.str)),
                   ("deny", Json.arr ((eraseFirstStr dn pat).map Json.str ++ [Json.str newPat]))])],
                Except.ok ⟨ruleIdName "user" "deny" newPat, "deny", newPat, "user"⟩)) := rfl
    have hu2 : ∃ m, update_permission (permDoc al as dn) (ruleIdName "user" "deny" pat)
        ⟨none, some newPat⟩ = (permDoc al as (eraseFirstStr dn pat), Except.error m) := by
      rcases hbad with hbadv | ⟨hval, hdup⟩
      · refine ⟨"Invalid pattern format: " ++ newPat, ?_⟩
        rw [hu, e3, if_pos (by simp [hbadv])]
      · have hdup' : newPat ∈ eraseFirstStr dn pat := hdup
        refine ⟨"Pattern already exists in deny list: " ++ newPat, ?_⟩
        rw [hu, e3, if_neg (by simp [hval]),
            if_pos ((jsonListContains_map_str (eraseFirstStr dn pat) newPat).mpr hdup')]
    obtain ⟨m, hu2⟩ := hu2
    refine ⟨⟨m, by rw [hu2]⟩, by rw [hu2]; rfl, ?_⟩
    rw [hu2]
    intro heq
    have hc := congrArg (fun d => catOf d "deny") heq
    simp only [catOf_permDoc_deny] at hc
    have hl := eraseFirstStr_length hmem'
    rw [hc] at hl
    omega

/-- C9 witness: updating the one `ask` rule `Bash(ls *)` to the invalid
pattern `x y` fails, yet the stored document has lost the original rule. -/
theorem update_permission_not_atomic_witness :
    (∃ e, (update_permission (permDoc [] ["Bash(ls *)"] [])
        (ruleIdName "user" "ask" "Bash(ls *)") ⟨none, some "x y"⟩).2 = Except.error e)
    ∧ (update_permission (permDoc [] ["Bash(ls *)"] [])
        (ruleIdName "user" "ask" "Bash(ls *)") ⟨none, some "x y"⟩).1
        = permDoc (if "ask" = "allow" then eraseFirstStr [] "Bash(ls *)" else [])
            (if "ask" = "ask" then eraseFirstStr ["Bash(ls *)"] "Bash(ls *)" else ["Bash(ls *)"])
            (if "ask" = "deny" then eraseFirstStr [] "Bash(ls *)" else [])
    ∧ (update_permission (permDoc [] ["Bash(ls *)"] [])
        (ruleIdName "user" "ask" "Bash(ls *)") ⟨none, some "x y"⟩).1
        ≠ permDoc [] ["Bash(ls *)"] [] :=
  update_permission_not_atomic [] ["Bash(ls *)"] [] "ask" "Bash(ls *)" "x y"
    (Or.inr (Or.inl rfl)) (by decide) rfl (Or.inl rfl)

end ClaudeDeck
